import Mathlib

/-!
Leveled logging (`utils/logging.go`)

A shallow embedding of the package `utils`: the log levels, the `Logger`
interface with its two implementations `NOPLogger` and `TimeLogger`, the
constructor `NewTimeLogger`, the four leveled write methods, the internal
`write` and the level query `IsLevel`.

What the package takes from its surroundings is made explicit:

* a `*io.Writer` is a `Handle`: `none` for the nil pointer, `some a` for the
  address `a` of an interface variable;
* the heap of interface variables is a `Store`: at each address either the
  nil interface (`none`) or a destination (`some d`);
* the clock is an input: every call that reads `time.Now()` receives the
  reading as an argument, and the package variable `processStart` is the
  reading taken at initialisation;
* a call that dereferences nil ends in a run-time panic, modelled as the
  result `none`.
-/

namespace Utils

/-! ## Byte strings, destinations and the store -/

/-- A Go string or byte slice, one `Char` for each byte. -/
abbrev Bytes := List Char

/-- The address of an `io.Writer` interface variable. -/
abbrev Addr := Nat

/-- A `*io.Writer`: the nil pointer or the address of an interface variable. -/
abbrev Handle := Option Addr

/-- A destination behind an `io.Writer`: the bytes it holds so far and how many
more it takes (`none`: it takes everything, as an in-memory buffer does). -/
structure Dest where
  content : Bytes
  room : Option Nat

/-- The method `Write(p) (n int, err error)` of a destination: the bytes
accepted are appended; a write that does not fit is cut short and reports an
error (`true` in the last component), as the contract of `io.Writer` asks. -/
def Dest.Write (d : Dest) (p : Bytes) : Dest × Int × Bool :=
  match d.room with
  | none => ({ d with content := d.content ++ p }, (p.length : Int), false)
  | some k =>
    if p.length ≤ k then
      ({ content := d.content ++ p, room := some (k - p.length) }, (p.length : Int), false)
    else
      ({ content := d.content ++ p.take k, room := some 0 }, (k : Int), true)

/-- The interface variables of the program: the nil interface or a destination. -/
abbrev Store := Addr → Option Dest

/-! ## Levels -/

/-- Go: `type LogLevel int`. -/
abbrev LogLevel := Int

/-- Go: `DEBUG = iota`. -/
def DEBUG : LogLevel := 0
/-- Go: `INFO`, the second constant of the `iota` block. -/
def INFO : LogLevel := 1
/-- Go: `WARN`, the third constant of the `iota` block. -/
def WARN : LogLevel := 2
/-- Go: `ERROR`, the fourth constant of the `iota` block. -/
def ERROR : LogLevel := 3
/-- Go: `QUIET`, the fifth constant of the `iota` block. -/
def QUIET : LogLevel := 4

/-! ## The timestamped writer: state, constructor, level query -/

/-- Go: `type TimeLogger struct { debugW, infoW, warnW, errorW *io.Writer }`. -/
structure TimeLogger where
  debugW : Handle
  infoW : Handle
  warnW : Handle
  errorW : Handle
deriving DecidableEq, Repr

/-- Go: `NewTimeLogger(w *io.Writer, lvl LogLevel) *TimeLogger`: starts from the
zero value and stores `w` in each field whose level is at or above `lvl`. -/
def NewTimeLogger (w : Handle) (lvl : LogLevel) : TimeLogger :=
  let l : TimeLogger := { debugW := none, infoW := none, warnW := none, errorW := none }
  let l := if lvl ≤ DEBUG then { l with debugW := w } else l
  let l := if lvl ≤ INFO then { l with infoW := w } else l
  let l := if lvl ≤ WARN then { l with warnW := w } else l
  let l := if lvl ≤ ERROR then { l with errorW := w } else l
  l

/-- Go: `(t *TimeLogger) IsLevel(level LogLevel) bool`: a `switch` over the four
levels, each answering whether its own field is non-nil; `false` otherwise. -/
def TimeLogger.IsLevel (t : TimeLogger) (level : LogLevel) : Bool :=
  if level = DEBUG then t.debugW != none
  else if level = INFO then t.infoW != none
  else if level = WARN then t.warnW != none
  else if level = ERROR then t.errorW != none
  else false

/-! ## `fmt`: the formatting verbs the package uses

The model covers the verbs `%s`, `%d`, `%v` and `%%` on string and integer
operands, with the diagnostics the library prints for a wrong, missing or
surplus operand.  Flags, widths, precisions, argument indexes and the other
verbs of the library (`%x`, `%q`, ...) are outside this fragment: on a format
that uses them the functions below do not print what the library prints.
`supportedFormat` marks the formats of the fragment, and a statement about the
bytes of a formatted message is made for those formats only. -/

/-- An operand of a formatting call: a Go `string` or a Go `int`. -/
inductive Arg where
  | str (s : Bytes)
  | int (n : Int)

/-- The decimal rendering of an integer (`%d`): a minus sign for a negative
number, then the digits of its magnitude. -/
def fmtInt (n : Int) : Bytes :=
  if n < 0 then '-' :: Nat.toDigits 10 n.natAbs else Nat.toDigits 10 n.natAbs

/-- The type name the library prints in a diagnostic. -/
def Arg.typeName : Arg → Bytes
  | .str _ => "string".toList
  | .int _ => "int".toList

/-- The default rendering of an operand (`%v`). -/
def Arg.value : Arg → Bytes
  | .str s => s
  | .int n => fmtInt n

/-- The diagnostic for a verb that does not fit its operand: `%!verb(type=value)`. -/
def badVerb (verb : Char) (a : Arg) : Bytes :=
  "%!".toList ++ [verb] ++ "(".toList ++ a.typeName ++ "=".toList ++ a.value ++ ")".toList

/-- One operand under one verb. -/
def printArg (a : Arg) (verb : Char) : Bytes :=
  match a with
  | .str s => if verb = 'v' ∨ verb = 's' then s else badVerb verb a
  | .int n => if verb = 'v' ∨ verb = 'd' then fmtInt n else badVerb verb a

/-- The operands left over, as listed inside `%!(EXTRA ...)`. -/
def extraList : List Arg → Bytes
  | [] => []
  | [a] => a.typeName ++ "=".toList ++ a.value
  | a :: b :: rest => a.typeName ++ "=".toList ++ a.value ++ ", ".toList ++ extraList (b :: rest)

/-- The end of a formatting run: surplus operands are reported. -/
def extraArgs : List Arg → Bytes
  | [] => []
  | a :: rest => "%!(EXTRA ".toList ++ extraList (a :: rest) ++ ")".toList

/-- The formatting loop. The flag says whether the byte before was a `%` that
opened a verb. Literal bytes are copied; `%%` is a percent sign; a verb takes
the next operand, or prints `%!verb(MISSING)` when none is left; a `%` at the
very end prints `%!(NOVERB)`. -/
def doPrintf : Bool → Bytes → List Arg → Bytes
  | false, [], args => extraArgs args
  | true, [], args => "%!(NOVERB)".toList ++ extraArgs args
  | false, c :: rest, args =>
    if c = '%' then doPrintf true rest args else c :: doPrintf false rest args
  | true, verb :: rest, args =>
    if verb = '%' then '%' :: doPrintf false rest args
    else
      match args with
      | [] => "%!".toList ++ [verb] ++ "(MISSING)".toList ++ doPrintf false rest []
      | a :: more => printArg a verb ++ doPrintf false rest more

/-- Go: `fmt.Sprintf(format, args...)`. -/
def Sprintf (format : Bytes) (args : List Arg) : Bytes :=
  doPrintf false format args

/-- Whether a format stays inside the fragment modelled above: plain bytes, and
after each `%` one of the bytes `v`, `s`, `d`, `%` (or the end of the format).
On such a format, with string and integer operands, `doPrintf` prints what the
library prints; any other format (a flag, a width, a verb such as `%x`) is
outside the fragment. The flag says whether the byte before was an opening `%`. -/
def supportedFormat : Bool → Bytes → Bool
  | _, [] => true
  | false, c :: rest => if c = '%' then supportedFormat true rest else supportedFormat false rest
  | true, verb :: rest =>
    (verb = 'v' || verb = 's' || verb = 'd' || verb = '%') && supportedFormat false rest

/-- Go: `fmt.Fprintf(w, format, args...) (n int, err error)`: formats, then calls
`w.Write` once with the whole text. On the nil interface the call of `Write`
panics (`none`). -/
def Fprintf (w : Option Dest) (format : Bytes) (args : List Arg) : Option (Dest × Int × Bool) :=
  match w with
  | none => none
  | some d => some (d.Write (Sprintf format args))

/-! ## `time`: clock readings and the layout elements the package uses -/

/-- A reading of `time.Now()`: the calendar fields of the instant in UTC (what
`In(time.UTC)` exposes; the layout of this package shows no year and no zone)
and the reading of the monotonic clock in nanoseconds. -/
structure Time where
  /-- Month of the year, January is `0`. -/
  month : Fin 12
  /-- Day of the month less one. -/
  day : Fin 31
  hour : Fin 24
  minute : Fin 60
  second : Fin 60
  nsec : Fin 1000000000
  /-- Monotonic clock, nanoseconds. -/
  mono : Int

/-- The library table `shortMonthNames`. -/
def shortMonthNames : List Bytes :=
  ["Jan".toList, "Feb".toList, "Mar".toList, "Apr".toList, "May".toList, "Jun".toList,
   "Jul".toList, "Aug".toList, "Sep".toList, "Oct".toList, "Nov".toList, "Dec".toList]

/-- The library helper `appendInt`: decimal digits, padded with zeros on the
left up to `width`. -/
def appendInt (x width : Nat) : Bytes :=
  let ds := Nat.toDigits 10 x
  List.replicate (width - ds.length) '0' ++ ds

/-- The fractional second of the element `.000…`: a dot and the first `n` of the
nine digits of the nanosecond. -/
def formatNano (nsec n : Nat) : Bytes :=
  '.' :: (appendInt nsec 9).take n

/-- Number of bytes `'0'` a byte string starts with. -/
def leadingZeros : Bytes → Nat
  | [] => 0
  | c :: rest => if c = '0' then leadingZeros rest + 1 else 0

/-- Whether a byte string starts with a decimal digit. -/
def startsWithDigit : Bytes → Bool
  | [] => false
  | c :: _ => c.isDigit

/-- Whether a byte string starts with a lower-case letter. -/
def startsWithLowerCase : Bytes → Bool
  | [] => false
  | c :: _ => c.isLower

/-- The scan of a layout, restricted to the elements that occur in the layout
of this package: `Jan` (month name), `02` (day), `15` (hour), `04` (minute),
`05` (second) and `.0…0` (fractional second). The counter is the number of
layout bytes still covered by the element rendered last; every other byte is
copied. -/
def formatLayout (t : Time) : Nat → Bytes → Bytes
  | _, [] => []
  | skip + 1, _ :: rest => formatLayout t skip rest
  | 0, c :: rest =>
    if "Jan".toList.isPrefixOf (c :: rest) ∧ startsWithLowerCase (rest.drop 2) = false then
      shortMonthNames.getD t.month.val [] ++ formatLayout t 2 rest
    else if "02".toList.isPrefixOf (c :: rest) then
      appendInt (t.day.val + 1) 2 ++ formatLayout t 1 rest
    else if "15".toList.isPrefixOf (c :: rest) then
      appendInt t.hour.val 2 ++ formatLayout t 1 rest
    else if "04".toList.isPrefixOf (c :: rest) then
      appendInt t.minute.val 2 ++ formatLayout t 1 rest
    else if "05".toList.isPrefixOf (c :: rest) then
      appendInt t.second.val 2 ++ formatLayout t 1 rest
    else if c = '.' ∧ 0 < leadingZeros rest ∧
        startsWithDigit (rest.drop (leadingZeros rest)) = false then
      formatNano t.nsec.val (leadingZeros rest) ++ formatLayout t (leadingZeros rest) rest
    else c :: formatLayout t 0 rest

/-- Go: `(t Time) Format(layout string) string`, on a reading already in UTC. -/
def Time.Format (t : Time) (layout : Bytes) : Bytes :=
  formatLayout t 0 layout

/-- Go: `(t Time) Sub(u Time) Duration`, both readings carrying the monotonic
clock: the difference in nanoseconds. -/
def Time.Sub (t u : Time) : Int :=
  t.mono - u.mono

/-- Rounding of a rational to the nearest integer, a tie going to the even one. -/
def roundHalfEven (q : ℚ) : Int :=
  if q - (⌊q⌋ : ℚ) < 1 / 2 then ⌊q⌋
  else if 1 / 2 < q - (⌊q⌋ : ℚ) then ⌊q⌋ + 1
  else if ⌊q⌋ % 2 = 0 then ⌊q⌋ else ⌊q⌋ + 1

/-- The `float64` nearest to an exact number (IEEE 754 binary64, round to
nearest, ties to even): 53 significant bits, so the value is rounded to a
multiple of `2 ^ (e - 52)` where `2 ^ e ≤ |q| < 2 ^ (e + 1)`. The values of this
package lie between `1e-9` and `1e10`, far from overflow and from the subnormal
range, which are left out. -/
def roundF64 (q : ℚ) : ℚ :=
  if q = 0 then 0
  else ((roundHalfEven (q / (2 : ℚ) ^ (Int.log 2 |q| - 52)) : Int) : ℚ) *
    (2 : ℚ) ^ (Int.log 2 |q| - 52)

/-- Go: `(d Duration) Seconds() float64`, whose body is `sec := d / Second`,
`nsec := d % Second`, `return float64(sec) + float64(nsec)/1e9`: the quotient
and the sum are each rounded to `float64` (the two conversions are exact). -/
def Seconds (d : Int) : ℚ :=
  roundF64 (((d.tdiv 1000000000 : Int) : ℚ) +
    roundF64 (((d.tmod 1000000000 : Int) : ℚ) / 1000000000))

/-- Go: the conversion `int(x)` of a floating-point number: the fraction is
dropped (truncation towards zero). -/
def goInt (x : ℚ) : Int :=
  if 0 ≤ x then ⌊x⌋ else ⌈x⌉

/-- Go: `math.Mod(x, y)`: the remainder of `x / y` with the sign of `x`. -/
def mathMod (x y : ℚ) : ℚ :=
  x - y * ((goInt (x / y) : Int) : ℚ)

/-! ## The timestamped writer: writing -/

/-- Go: `logTimestampFormat = "Jan 02 15:04:05.000"`. -/
def logTimestampFormat : Bytes := "Jan 02 15:04:05.000".toList

/-- The value `secs := int(math.Mod(runningSecs, 60))` of `write`. -/
def writeSecs (runningSecs : ℚ) : Int :=
  goInt (mathMod runningSecs 60)

/-- The value `mins := int(runningSecs / 60)` of `write`; the quotient is taken
exactly. -/
def writeMins (runningSecs : ℚ) : Int :=
  goInt (runningSecs / 60)

/-- The text `write` hands to the destination, for the clock reading `ts`. -/
def writeText (processStart ts : Time) (tag str : Bytes) : Bytes :=
  let runningSecs := Seconds (ts.Sub processStart)
  let secs := writeSecs runningSecs
  let mins := writeMins runningSecs
  Sprintf "%s%s - %dm%ds %s".toList
    [.str tag, .str (ts.Format logTimestampFormat), .int mins, .int secs, .str str]

/-- Go: `(t *TimeLogger) write(w *io.Writer, prefix, str string) (n int, err error)`.
`ts` is the reading `time.Now()` returns inside the call. The pointer `w` is
dereferenced (nil panics) and the formatted record goes through `fmt.Fprintf`;
the result is the store after the call with the pair `(n, err)`. -/
def TimeLogger.write (_t : TimeLogger) (processStart ts : Time) (w : Handle)
    (tag str : Bytes) (s : Store) : Option (Store × Int × Bool) :=
  match w with
  | none => none
  | some a =>
    let runningSecs := Seconds (ts.Sub processStart)
    let secs := writeSecs runningSecs
    let mins := writeMins runningSecs
    match Fprintf (s a) "%s%s - %dm%ds %s".toList
        [.str tag, .str (ts.Format logTimestampFormat), .int mins, .int secs, .str str] with
    | none => none
    | some (d, n, err) => some (Function.update s a (some d), n, err)

/-- Go: `(t *TimeLogger) Debugf(format string, args ...interface{})`. -/
def TimeLogger.Debugf (t : TimeLogger) (processStart ts : Time) (format : Bytes)
    (args : List Arg) (s : Store) : Option Store :=
  if t.debugW ≠ none then
    (t.write processStart ts t.debugW "DEBUG ".toList (Sprintf format args) s).map (·.1)
  else some s

/-- Go: `(t *TimeLogger) Infof(format string, args ...interface{})`. -/
def TimeLogger.Infof (t : TimeLogger) (processStart ts : Time) (format : Bytes)
    (args : List Arg) (s : Store) : Option Store :=
  if t.infoW ≠ none then
    (t.write processStart ts t.infoW "INFO  ".toList (Sprintf format args) s).map (·.1)
  else some s

/-- Go: `(t *TimeLogger) Warningf(format string, args ...interface{})`. -/
def TimeLogger.Warningf (t : TimeLogger) (processStart ts : Time) (format : Bytes)
    (args : List Arg) (s : Store) : Option Store :=
  if t.warnW ≠ none then
    (t.write processStart ts t.warnW "WARN  ".toList (Sprintf format args) s).map (·.1)
  else some s

/-- Go: `(t *TimeLogger) Errorf(format string, args ...interface{})`. -/
def TimeLogger.Errorf (t : TimeLogger) (processStart ts : Time) (format : Bytes)
    (args : List Arg) (s : Store) : Option Store :=
  if t.errorW ≠ none then
    (t.write processStart ts t.errorW "ERROR ".toList (Sprintf format args) s).map (·.1)
  else some s

/-! ## The methods on the memory that holds the receiver

The methods of `TimeLogger` have a pointer receiver, so a method body could
assign to the fields of `*t`. Below each method is a function on the whole
memory it can reach: the object the receiver points to and the interface
variables. What a body does not touch comes back as it went in. -/

/-- The memory a method of `*TimeLogger` works on: the object `*t` and the
interface variables. -/
structure Mem where
  self : TimeLogger
  store : Store

/-- Go: `(t *TimeLogger) write(w *io.Writer, prefix, str string) (n int, err error)`
on the memory: the only effect of the body is the `Write` of the destination
through `fmt.Fprintf(*w, ...)`. -/
def Mem.write (m : Mem) (processStart ts : Time) (w : Handle) (tag str : Bytes) :
    Option (Mem × Int × Bool) :=
  match w with
  | none => none
  | some a =>
    let runningSecs := Seconds (ts.Sub processStart)
    let secs := writeSecs runningSecs
    let mins := writeMins runningSecs
    match Fprintf (m.store a) "%s%s - %dm%ds %s".toList
        [.str tag, .str (ts.Format logTimestampFormat), .int mins, .int secs, .str str] with
    | none => none
    | some (d, n, err) => some ({ m with store := Function.update m.store a (some d) }, n, err)

/-- Go: `(t *TimeLogger) Debugf(format string, args ...interface{})` on the memory. -/
def Mem.Debugf (m : Mem) (processStart ts : Time) (format : Bytes) (args : List Arg) :
    Option Mem :=
  if m.self.debugW ≠ none then
    (m.write processStart ts m.self.debugW "DEBUG ".toList (Sprintf format args)).map (·.1)
  else some m

/-- Go: `(t *TimeLogger) Infof(format string, args ...interface{})` on the memory. -/
def Mem.Infof (m : Mem) (processStart ts : Time) (format : Bytes) (args : List Arg) :
    Option Mem :=
  if m.self.infoW ≠ none then
    (m.write processStart ts m.self.infoW "INFO  ".toList (Sprintf format args)).map (·.1)
  else some m

/-- Go: `(t *TimeLogger) Warningf(format string, args ...interface{})` on the memory. -/
def Mem.Warningf (m : Mem) (processStart ts : Time) (format : Bytes) (args : List Arg) :
    Option Mem :=
  if m.self.warnW ≠ none then
    (m.write processStart ts m.self.warnW "WARN  ".toList (Sprintf format args)).map (·.1)
  else some m

/-- Go: `(t *TimeLogger) Errorf(format string, args ...interface{})` on the memory. -/
def Mem.Errorf (m : Mem) (processStart ts : Time) (format : Bytes) (args : List Arg) :
    Option Mem :=
  if m.self.errorW ≠ none then
    (m.write processStart ts m.self.errorW "ERROR ".toList (Sprintf format args)).map (·.1)
  else some m

/-- Go: `(t *TimeLogger) IsLevel(level LogLevel) bool` on the memory: the memory
after the call and the value returned. -/
def Mem.IsLevel (m : Mem) (level : LogLevel) : Mem × Bool :=
  if level = DEBUG then (m, m.self.debugW != none)
  else if level = INFO then (m, m.self.infoW != none)
  else if level = WARN then (m, m.self.warnW != none)
  else if level = ERROR then (m, m.self.errorW != none)
  else (m, false)

/-! ## The null sink and the `Logger` interface -/

/-- Go: `type NOPLogger struct{}`. -/
structure NOPLogger where
deriving DecidableEq, Repr

/-- Go: `(*NOPLogger) Debugf(format string, args ...interface{}) {}`. -/
def NOPLogger.Debugf (_l : NOPLogger) (_format : Bytes) (_args : List Arg) (s : Store) :
    Option Store := some s

/-- Go: `(*NOPLogger) Infof(format string, args ...interface{}) {}`. -/
def NOPLogger.Infof (_l : NOPLogger) (_format : Bytes) (_args : List Arg) (s : Store) :
    Option Store := some s

/-- Go: `(*NOPLogger) Warningf(format string, args ...interface{}) {}`. -/
def NOPLogger.Warningf (_l : NOPLogger) (_format : Bytes) (_args : List Arg) (s : Store) :
    Option Store := some s

/-- Go: `(*NOPLogger) Errorf(format string, args ...interface{}) {}`. -/
def NOPLogger.Errorf (_l : NOPLogger) (_format : Bytes) (_args : List Arg) (s : Store) :
    Option Store := some s

/-- Go: `(l *NOPLogger) IsLevel(level LogLevel) bool { return false }`. -/
def NOPLogger.IsLevel (_l : NOPLogger) (_level : LogLevel) : Bool := false

/-- Go: the interface `Logger`, with the two types of the package that
implement it. -/
inductive Logger where
  | nop (l : NOPLogger)
  | time (t : TimeLogger)

/-- Go: `NullLogger Logger = &NOPLogger{}`. -/
def NullLogger : Logger := .nop {}

/-- Interface call `l.Debugf(format, args...)`. -/
def Logger.Debugf (l : Logger) (processStart ts : Time) (format : Bytes) (args : List Arg)
    (s : Store) : Option Store :=
  match l with
  | .nop n => n.Debugf format args s
  | .time t => t.Debugf processStart ts format args s

/-- Interface call `l.Infof(format, args...)`. -/
def Logger.Infof (l : Logger) (processStart ts : Time) (format : Bytes) (args : List Arg)
    (s : Store) : Option Store :=
  match l with
  | .nop n => n.Infof format args s
  | .time t => t.Infof processStart ts format args s

/-- Interface call `l.Warningf(format, args...)`. -/
def Logger.Warningf (l : Logger) (processStart ts : Time) (format : Bytes) (args : List Arg)
    (s : Store) : Option Store :=
  match l with
  | .nop n => n.Warningf format args s
  | .time t => t.Warningf processStart ts format args s

/-- Interface call `l.Errorf(format, args...)`. -/
def Logger.Errorf (l : Logger) (processStart ts : Time) (format : Bytes) (args : List Arg)
    (s : Store) : Option Store :=
  match l with
  | .nop n => n.Errorf format args s
  | .time t => t.Errorf processStart ts format args s

/-- Interface call `l.IsLevel(level)`. -/
def Logger.IsLevel (l : Logger) (level : LogLevel) : Bool :=
  match l with
  | .nop n => n.IsLevel level
  | .time t => t.IsLevel level

/-! ## Vocabulary of the statements -/

/-- The write method that belongs to a level: `Debugf` for DEBUG, `Infof` for
INFO, `Warningf` for WARN, `Errorf` for ERROR. -/
def TimeLogger.leveled (t : TimeLogger) (L : LogLevel) (processStart ts : Time)
    (format : Bytes) (args : List Arg) (s : Store) : Option Store :=
  if L = DEBUG then t.Debugf processStart ts format args s
  else if L = INFO then t.Infof processStart ts format args s
  else if L = WARN then t.Warningf processStart ts format args s
  else t.Errorf processStart ts format args s

/-- The field of the writer that belongs to a level. -/
def TimeLogger.handleOf (t : TimeLogger) (L : LogLevel) : Handle :=
  if L = DEBUG then t.debugW
  else if L = INFO then t.infoW
  else if L = WARN then t.warnW
  else t.errorW

/-- The tag the write method of a level passes to `write`. -/
def tagOf (L : LogLevel) : Bytes :=
  if L = DEBUG then "DEBUG ".toList
  else if L = INFO then "INFO  ".toList
  else if L = WARN then "WARN  ".toList
  else "ERROR ".toList

/-- A call wrote at least one byte: it returned, and some destination holds more
bytes after it than before. -/
def wroteBytes (s : Store) (r : Option Store) : Prop :=
  ∃ s1 a d d1, r = some s1 ∧ s a = some d ∧ s1 a = some d1 ∧
    d.content.length < d1.content.length

/-- The elapsed-time field of a record: minutes, `m`, seconds, `s`. -/
def elapsedField (processStart ts : Time) : Bytes :=
  fmtInt (writeMins (Seconds (ts.Sub processStart))) ++ "m".toList ++
    fmtInt (writeSecs (Seconds (ts.Sub processStart))) ++ "s".toList

/-- The record as the interface description spells it: tag, timestamp, ` - `,
minutes, `m`, seconds, `s `, message, and nothing after the message. -/
def recordOf (tag stamp : Bytes) (mins secs : Int) (m : Bytes) : Bytes :=
  tag ++ stamp ++ " - ".toList ++ fmtInt mins ++ "m".toList ++ fmtInt secs ++ "s ".toList ++ m

/-- One or more decimal digits. -/
def isDigits (b : Bytes) : Prop :=
  b ≠ [] ∧ ∀ c ∈ b, c.isDigit = true

/-- The shape the list of testable properties gives for a record with message
`m`: a tag of six bytes, one space, a timestamp of eighteen bytes, ` - `,
digits, `m`, digits, `s`, a space, the message. -/
def claimedShape (r m : Bytes) : Prop :=
  ∃ tag stamp mins secs : Bytes, tag.length = 6 ∧ stamp.length = 18 ∧
    isDigits mins ∧ isDigits secs ∧
    r = tag ++ " ".toList ++ stamp ++ " - ".toList ++ mins ++ "m".toList ++ secs ++
      "s".toList ++ " ".toList ++ m

/-- The shape of a record as `write` lays it out: the tag of six bytes, then at
once a timestamp of nineteen bytes, ` - `, digits, `m`, digits, `s`, a space,
the message. -/
def recordShape (r tag m : Bytes) : Prop :=
  ∃ stamp mins secs : Bytes, tag.length = 6 ∧ stamp.length = 19 ∧
    isDigits mins ∧ isDigits secs ∧
    r = tag ++ stamp ++ " - ".toList ++ mins ++ "m".toList ++ secs ++
      "s".toList ++ " ".toList ++ m

/-- A sequence of calls of the write method of one level, each with its clock
reading, format and operands; a panic ends the sequence. -/
def TimeLogger.leveledAll (t : TimeLogger) (L : LogLevel) (processStart : Time) :
    List (Time × Bytes × List Arg) → Store → Option Store
  | [], s => some s
  | call :: rest, s =>
    (t.leveled L processStart call.1 call.2.1 call.2.2 s).bind
      (t.leveledAll L processStart rest)

/-- The minutes and seconds components `write` puts into the record of a clock
reading. -/
def elapsedOf (processStart ts : Time) : Int × Int :=
  (writeMins (Seconds (ts.Sub processStart)), writeSecs (Seconds (ts.Sub processStart)))

/-! ## Calls and their outcome for the caller -/

/-- A call of one of the five methods of `Logger` with its arguments; a write
method also carries the reading the clock gives during the call. -/
inductive Call where
  | debugf (ts : Time) (format : Bytes) (args : List Arg)
  | infof (ts : Time) (format : Bytes) (args : List Arg)
  | warningf (ts : Time) (format : Bytes) (args : List Arg)
  | errorf (ts : Time) (format : Bytes) (args : List Arg)
  | isLevel (level : LogLevel)

/-- One call on a `*TimeLogger`, run on the memory made of the receiver object
`t` and the store `s`. A call that returns gives the receiver object and the
store as the method left them, and the value handed to the caller: the write
methods have no result (`none`), `IsLevel` returns a `bool`. A panic is `none`. -/
def TimeLogger.call (t : TimeLogger) (processStart : Time) (c : Call) (s : Store) :
    Option (TimeLogger × Store × Option Bool) :=
  match c with
  | .debugf ts format args =>
    (Mem.Debugf ⟨t, s⟩ processStart ts format args).map (fun m => (m.self, m.store, none))
  | .infof ts format args =>
    (Mem.Infof ⟨t, s⟩ processStart ts format args).map (fun m => (m.self, m.store, none))
  | .warningf ts format args =>
    (Mem.Warningf ⟨t, s⟩ processStart ts format args).map (fun m => (m.self, m.store, none))
  | .errorf ts format args =>
    (Mem.Errorf ⟨t, s⟩ processStart ts format args).map (fun m => (m.self, m.store, none))
  | .isLevel level =>
    some ((Mem.IsLevel ⟨t, s⟩ level).1.self, (Mem.IsLevel ⟨t, s⟩ level).1.store,
      some (Mem.IsLevel ⟨t, s⟩ level).2)

/-- One call through the interface `Logger`, on either implementation. -/
def Logger.call (l : Logger) (processStart : Time) (c : Call) (s : Store) :
    Option (Logger × Store × Option Bool) :=
  match c with
  | .debugf ts format args =>
    (l.Debugf processStart ts format args s).map (fun s1 => (l, s1, none))
  | .infof ts format args =>
    (l.Infof processStart ts format args s).map (fun s1 => (l, s1, none))
  | .warningf ts format args =>
    (l.Warningf processStart ts format args s).map (fun s1 => (l, s1, none))
  | .errorf ts format args =>
    (l.Errorf processStart ts format args s).map (fun s1 => (l, s1, none))
  | .isLevel level => some (l, s, some (l.IsLevel level))

/-- A finite sequence of calls on one `*TimeLogger`, each on the receiver and the
store the call before left; a panic ends the sequence. -/
def TimeLogger.run (processStart : Time) :
    List Call → TimeLogger → Store → Option (TimeLogger × Store)
  | [], t, s => some (t, s)
  | c :: rest, t, s =>
    (t.call processStart c s).bind (fun r => TimeLogger.run processStart rest r.1 r.2.1)

/-- The write call of a level: `Debugf` for DEBUG, `Infof` for INFO, `Warningf`
for WARN, `Errorf` for ERROR. -/
def Call.ofLevel (L : LogLevel) (ts : Time) (format : Bytes) (args : List Arg) : Call :=
  if L = DEBUG then .debugf ts format args
  else if L = INFO then .infof ts format args
  else if L = WARN then .warningf ts format args
  else .errorf ts format args

/-- What a call shows to its caller: whether it returned, the receiver and the
value returned; the content of the destinations is left out. -/
def towardsCaller (r : Option (TimeLogger × Store × Option Bool)) :
    Option (TimeLogger × Option Bool) :=
  r.map (fun x => (x.1, x.2.2))

/-! ## Theorems -/

/-- The four fields of a freshly built writer, one threshold test for each. -/
theorem NewTimeLogger_fields (w : Handle) (T : LogLevel) :
    NewTimeLogger w T =
      { debugW := if T ≤ DEBUG then w else none
        infoW := if T ≤ INFO then w else none
        warnW := if T ≤ WARN then w else none
        errorW := if T ≤ ERROR then w else none } := by
  unfold NewTimeLogger
  by_cases h0 : T ≤ DEBUG <;> by_cases h1 : T ≤ INFO <;> by_cases h2 : T ≤ WARN <;>
    by_cases h3 : T ≤ ERROR <;> simp only [h0, h1, h2, h3, if_true, if_false]

/-- C1: for every threshold `T` (any integer), every non-nil handle `w` and every
level `L` among DEBUG, INFO, WARN, ERROR, the writer built by
`NewTimeLogger w T` answers `IsLevel L` with true exactly when `T ≤ L`. -/
theorem newTimeLogger_isLevel_iff (T : LogLevel) (a : Addr) (L : LogLevel)
    (hL : L = DEBUG ∨ L = INFO ∨ L = WARN ∨ L = ERROR) :
    (NewTimeLogger (some a) T).IsLevel L = true ↔ T ≤ L := by
  rw [NewTimeLogger_fields]
  rcases hL with h | h | h | h <;> subst h <;>
    simp only [TimeLogger.IsLevel, DEBUG, INFO, WARN, ERROR] <;>
    split_ifs <;> simp_all

/-- C1, at a concrete input: threshold `-7`, handle `some 5`, level WARN. -/
theorem newTimeLogger_isLevel_iff_witness :
    (WARN = DEBUG ∨ WARN = INFO ∨ WARN = WARN ∨ WARN = ERROR) ∧
    ((NewTimeLogger (some 5) (-7)).IsLevel WARN = true ↔ (-7 : LogLevel) ≤ WARN) :=
  ⟨by decide, newTimeLogger_isLevel_iff (-7) 5 WARN (by decide)⟩

/-! ### Elapsed time: minutes and seconds -/

theorem goInt_of_nonneg {x : ℚ} (h : 0 ≤ x) : goInt x = ⌊x⌋ := by
  simp [goInt, h]

theorem mathMod_sixty_of_nonneg {e : ℚ} (he : 0 ≤ e) :
    mathMod e 60 = e - 60 * ((⌊e / 60⌋ : Int) : ℚ) := by
  unfold mathMod
  rw [goInt_of_nonneg (div_nonneg he (by norm_num))]

theorem mathMod_sixty_bounds {e : ℚ} (he : 0 ≤ e) :
    0 ≤ mathMod e 60 ∧ mathMod e 60 < 60 := by
  rw [mathMod_sixty_of_nonneg he]
  have h1 : ((⌊e / 60⌋ : Int) : ℚ) ≤ e / 60 := Int.floor_le _
  have h2 : e / 60 < ((⌊e / 60⌋ : Int) : ℚ) + 1 := Int.lt_floor_add_one _
  constructor <;> linarith

theorem writeSecs_eq_floor_sub {e : ℚ} (he : 0 ≤ e) :
    writeSecs e = ⌊e⌋ - 60 * ⌊e / 60⌋ := by
  unfold writeSecs
  rw [goInt_of_nonneg (mathMod_sixty_bounds he).1, mathMod_sixty_of_nonneg he]
  have : (60 : ℚ) * ((⌊e / 60⌋ : Int) : ℚ) = (((60 * ⌊e / 60⌋ : Int)) : ℚ) := by push_cast; ring
  rw [this, Int.floor_sub_int]

/-- Minutes and seconds of a non-negative elapsed time, as floors. -/
theorem mins_secs_of_nonneg (e : ℚ) (he : 0 ≤ e) :
    writeMins e = ⌊e / 60⌋ ∧
    writeSecs e = ⌊e - 60 * ((⌊e / 60⌋ : Int) : ℚ)⌋ ∧
    0 ≤ writeSecs e ∧ writeSecs e < 60 ∧
    60 * writeMins e + writeSecs e = ⌊e⌋ := by
  have hm : writeMins e = ⌊e / 60⌋ := goInt_of_nonneg (div_nonneg he (by norm_num))
  have hs : writeSecs e = ⌊mathMod e 60⌋ := goInt_of_nonneg (mathMod_sixty_bounds he).1
  refine ⟨hm, ?_, ?_, ?_, ?_⟩
  · rw [hs, mathMod_sixty_of_nonneg he]
  · rw [hs]; exact Int.floor_nonneg.mpr (mathMod_sixty_bounds he).1
  · rw [hs]; exact Int.floor_lt.mpr (by exact_mod_cast (mathMod_sixty_bounds he).2)
  · rw [hm, writeSecs_eq_floor_sub he]; ring

/-- C4: for every non-negative elapsed time `e` (seconds, an exact number), the
integers `write` computes are `mins = ⌊e / 60⌋` and `secs = ⌊e mod 60⌋` (with
`e mod 60 = e - 60 * ⌊e / 60⌋`), and `0 ≤ secs < 60` and
`60 * mins + secs = ⌊e⌋`. -/
theorem write_mins_secs (e : ℚ) (he : 0 ≤ e) :
    writeMins e = ⌊e / 60⌋ ∧
    writeSecs e = ⌊e - 60 * ((⌊e / 60⌋ : Int) : ℚ)⌋ ∧
    0 ≤ writeSecs e ∧ writeSecs e < 60 ∧
    60 * writeMins e + writeSecs e = ⌊e⌋ :=
  mins_secs_of_nonneg e he

/-- C4, at the elapsed time of 125.5 seconds. -/
theorem write_mins_secs_witness :
    (0 : ℚ) ≤ 251 / 2 ∧
    (writeMins (251 / 2) = ⌊(251 / 2 : ℚ) / 60⌋ ∧
     writeSecs (251 / 2) = ⌊(251 / 2 : ℚ) - 60 * ((⌊(251 / 2 : ℚ) / 60⌋ : Int) : ℚ)⌋ ∧
     0 ≤ writeSecs (251 / 2) ∧ writeSecs (251 / 2) < 60 ∧
     60 * writeMins (251 / 2) + writeSecs (251 / 2) = ⌊(251 / 2 : ℚ)⌋) :=
  ⟨by norm_num, write_mins_secs (251 / 2) (by norm_num)⟩

/-! ### Rounding to float64 and `Duration.Seconds` -/

/-- A whole number rounds to itself. -/
theorem roundHalfEven_intCast (z : Int) : roundHalfEven (z : ℚ) = z := by
  simp [roundHalfEven]

/-- Rounding to the nearest integer keeps the order. -/
theorem roundHalfEven_mono {x y : ℚ} (h : x ≤ y) : roundHalfEven x ≤ roundHalfEven y := by
  have hfl : ⌊x⌋ ≤ ⌊y⌋ := Int.floor_le_floor h
  have hx1 : roundHalfEven x ≤ ⌊x⌋ + 1 := by
    unfold roundHalfEven; split_ifs <;> omega
  have hy0 : ⌊y⌋ ≤ roundHalfEven y := by
    unfold roundHalfEven; split_ifs <;> omega
  rcases lt_or_eq_of_le hfl with hlt | heq
  · omega
  · have hfr : x - (⌊x⌋ : ℚ) ≤ y - (⌊y⌋ : ℚ) := by rw [heq]; linarith
    unfold roundHalfEven
    rw [heq]
    split_ifs <;> first | omega | (exfalso; linarith)


/-- Zero is a float64. -/
theorem roundF64_zero : roundF64 0 = 0 := by simp [roundF64]

/-- On a positive number: the scaled value is rounded and scaled back. -/
theorem roundF64_pos {q : ℚ} (hq : 0 < q) :
    roundF64 q = ((roundHalfEven (q / (2 : ℚ) ^ (Int.log 2 q - 52)) : Int) : ℚ) *
      (2 : ℚ) ^ (Int.log 2 q - 52) := by
  simp [roundF64, hq.ne', abs_of_pos hq]

/-- Rounding stays between the two powers of two around the number. -/
theorem roundF64_bounds {q : ℚ} (hq : 0 < q) :
    (2 : ℚ) ^ (Int.log 2 q) ≤ roundF64 q ∧ roundF64 q ≤ (2 : ℚ) ^ (Int.log 2 q + 1) := by
  rw [roundF64_pos hq]
  set e := Int.log 2 q with he
  have hu : (0 : ℚ) < (2 : ℚ) ^ (e - 52) := zpow_pos (by norm_num) _
  have hlo : (2 : ℚ) ^ e ≤ q := Int.zpow_log_le_self (by norm_num) hq
  have hhi : q < (2 : ℚ) ^ (e + 1) := Int.lt_zpow_succ_log_self (by norm_num) q
  have e1 : (2 : ℚ) ^ e = (((2 : Int) ^ 52 : Int) : ℚ) * (2 : ℚ) ^ (e - 52) := by
    rw [zpow_sub₀ (by norm_num : (2 : ℚ) ≠ 0)]; push_cast; field_simp; ring
  have e2 : (2 : ℚ) ^ (e + 1) = (((2 : Int) ^ 53 : Int) : ℚ) * (2 : ℚ) ^ (e - 52) := by
    rw [zpow_sub₀ (by norm_num : (2 : ℚ) ≠ 0), zpow_add₀ (by norm_num : (2 : ℚ) ≠ 0)]
    push_cast; field_simp; ring
  constructor
  · rw [e1]
    apply mul_le_mul_of_nonneg_right _ hu.le
    have : (((2 : Int) ^ 52 : Int) : ℚ) ≤ q / (2 : ℚ) ^ (e - 52) := by
      rw [le_div_iff₀ hu, ← e1]; exact hlo
    have h := roundHalfEven_mono this
    rw [roundHalfEven_intCast] at h
    exact_mod_cast h
  · rw [e2]
    apply mul_le_mul_of_nonneg_right _ hu.le
    have : q / (2 : ℚ) ^ (e - 52) ≤ (((2 : Int) ^ 53 : Int) : ℚ) := by
      rw [div_le_iff₀ hu, ← e2]; exact hhi.le
    have h := roundHalfEven_mono this
    rw [roundHalfEven_intCast] at h
    exact_mod_cast h

/-- Rounding a non-negative number gives a non-negative number. -/
theorem roundF64_nonneg {q : ℚ} (hq : 0 ≤ q) : 0 ≤ roundF64 q := by
  rcases eq_or_lt_of_le hq with h | h
  · rw [← h, roundF64_zero]
  · exact le_trans (zpow_pos (by norm_num) _).le (roundF64_bounds h).1

/-- Rounding to float64 keeps the order. -/
theorem roundF64_mono {a b : ℚ} (ha : 0 ≤ a) (hab : a ≤ b) : roundF64 a ≤ roundF64 b := by
  rcases eq_or_lt_of_le ha with h | h
  · rw [← h, roundF64_zero]; exact roundF64_nonneg (le_trans ha hab)
  · have hb : 0 < b := lt_of_lt_of_le h hab
    have hlog : Int.log 2 a ≤ Int.log 2 b := Int.log_mono_right h hab
    rcases eq_or_lt_of_le hlog with heq | hlt
    · rw [roundF64_pos h, roundF64_pos hb, heq]
      have hu : (0 : ℚ) < (2 : ℚ) ^ (Int.log 2 b - 52) := zpow_pos (by norm_num) _
      apply mul_le_mul_of_nonneg_right _ hu.le
      exact_mod_cast roundHalfEven_mono (div_le_div_of_nonneg_right hab hu.le)
    · calc roundF64 a ≤ (2 : ℚ) ^ (Int.log 2 a + 1) := (roundF64_bounds h).2
        _ ≤ (2 : ℚ) ^ (Int.log 2 b) := zpow_le_zpow_right₀ (by norm_num) (by omega)
        _ ≤ roundF64 b := (roundF64_bounds hb).1

/-- A whole number below `2 ^ 53` is a float64. -/
theorem roundF64_intCast (n : Int) (h0 : 0 ≤ n) (h1 : n < 2 ^ 53) : roundF64 (n : ℚ) = n := by
  rcases eq_or_lt_of_le h0 with h | h
  · rw [← h]; simp [roundF64_zero]
  · have hq : (0 : ℚ) < (n : ℚ) := by exact_mod_cast h
    rw [roundF64_pos hq]
    set e := Int.log 2 (n : ℚ) with he
    have hlt : e < 53 := by
      rw [he, ← Int.lt_zpow_iff_log_lt (by norm_num) hq]
      exact_mod_cast h1
    obtain ⟨k, hk⟩ : ∃ k : ℕ, e - 52 = -(k : Int) := ⟨(52 - e).toNat, by omega⟩
    rw [hk, zpow_neg, zpow_natCast, div_inv_eq_mul]
    have : (n : ℚ) * (2 : ℚ) ^ k = ((n * 2 ^ k : Int) : ℚ) := by push_cast; ring
    rw [this, roundHalfEven_intCast]
    push_cast
    field_simp


/-- On a non-negative duration the truncated quotient and rest are the usual ones. -/
theorem Seconds_of_nonneg {d : Int} (hd : 0 ≤ d) :
    Seconds d = roundF64 (((d / 1000000000 : Int) : ℚ) +
      roundF64 (((d % 1000000000 : Int) : ℚ) / 1000000000)) := by
  unfold Seconds
  rw [Int.tdiv_eq_ediv hd (by decide), Int.tmod_eq_emod hd (by decide)]

/-- The rounded fraction of a second lies between zero and one. -/
theorem frac_bounds (n : Int) (h0 : 0 ≤ n) (h1 : n < 1000000000) :
    0 ≤ roundF64 ((n : ℚ) / 1000000000) ∧ roundF64 ((n : ℚ) / 1000000000) ≤ 1 := by
  have hq0 : (0 : ℚ) ≤ (n : ℚ) / 1000000000 := by positivity
  have hq1 : (n : ℚ) / 1000000000 ≤ ((1 : Int) : ℚ) := by
    rw [div_le_iff₀ (by norm_num)]
    have : (n : ℚ) ≤ 1000000000 := by exact_mod_cast h1.le
    push_cast; linarith
  refine ⟨roundF64_nonneg hq0, ?_⟩
  have h := roundF64_mono hq0 hq1
  rw [roundF64_intCast 1 (by decide) (by decide)] at h
  exact_mod_cast h

/-- The value of `Duration.Seconds` on a non-negative duration is non-negative. -/
theorem Seconds_nonneg {d : Int} (hd : 0 ≤ d) : 0 ≤ Seconds d := by
  rw [Seconds_of_nonneg hd]
  have hs : (0 : ℚ) ≤ ((d / 1000000000 : Int) : ℚ) := by
    exact_mod_cast Int.ediv_nonneg hd (by decide)
  have hf := (frac_bounds (d % 1000000000) (Int.emod_nonneg _ (by decide))
    (Int.emod_lt_of_pos _ (by decide))).1
  exact roundF64_nonneg (by linarith)

/-- The value of `Duration.Seconds` does not decrease with the duration. -/
theorem Seconds_mono {d1 d2 : Int} (h0 : 0 ≤ d1) (h12 : d1 ≤ d2) :
    Seconds d1 ≤ Seconds d2 := by
  rw [Seconds_of_nonneg h0, Seconds_of_nonneg (le_trans h0 h12)]
  have hs1 : (0 : ℚ) ≤ ((d1 / 1000000000 : Int) : ℚ) := by
    exact_mod_cast Int.ediv_nonneg h0 (by decide)
  have hf1 := frac_bounds (d1 % 1000000000) (Int.emod_nonneg _ (by decide))
    (Int.emod_lt_of_pos _ (by decide))
  have hf2 := frac_bounds (d2 % 1000000000) (Int.emod_nonneg _ (by decide))
    (Int.emod_lt_of_pos _ (by decide))
  apply roundF64_mono (by linarith)
  have hq : d1 / 1000000000 ≤ d2 / 1000000000 := Int.ediv_le_ediv (by decide) h12
  rcases eq_or_lt_of_le hq with heq | hlt
  · rw [heq]
    have hn : d1 % 1000000000 ≤ d2 % 1000000000 := by omega
    have hn0 : (0 : ℚ) ≤ ((d1 % 1000000000 : Int) : ℚ) / 1000000000 := by
      have : (0 : ℚ) ≤ ((d1 % 1000000000 : Int) : ℚ) := by
        exact_mod_cast Int.emod_nonneg d1 (by decide)
      positivity
    have hle : ((d1 % 1000000000 : Int) : ℚ) / 1000000000 ≤
        ((d2 % 1000000000 : Int) : ℚ) / 1000000000 := by
      apply div_le_div_of_nonneg_right _ (by norm_num)
      exact_mod_cast hn
    have := roundF64_mono hn0 hle
    linarith
  · have h1 : ((d1 / 1000000000 : Int) : ℚ) + 1 ≤ ((d2 / 1000000000 : Int) : ℚ) := by
      exact_mod_cast hlt
    linarith [hf1.2, hf2.1]

/-- On a whole number of seconds `Duration.Seconds` is exact. -/
theorem Seconds_whole {d : Int} (hd : 0 ≤ d) (hw : d % 1000000000 = 0)
    (hb : d < 9007199254740992000000000) :
    Seconds d = ((d / 1000000000 : Int) : ℚ) := by
  rw [Seconds_of_nonneg hd, hw]
  simp only [Int.cast_zero, zero_div, roundF64_zero, add_zero]
  exact roundF64_intCast _ (Int.ediv_nonneg hd (by decide)) (by omega)

/-- Minutes of a whole number of seconds. -/
theorem writeMins_Seconds {d : Int} (hd : 0 ≤ d) (hw : d % 1000000000 = 0)
    (hb : d < 9007199254740992000000000) :
    writeMins (Seconds d) = d / 60000000000 := by
  have hk : 0 ≤ d / 1000000000 := Int.ediv_nonneg hd (by decide)
  have he : (0 : ℚ) ≤ ((d / 1000000000 : Int) : ℚ) := by exact_mod_cast hk
  rw [Seconds_whole hd hw hb, (mins_secs_of_nonneg _ he).1]
  have h := Rat.floor_intCast_div_natCast (d / 1000000000) 60
  have h60 : ((60 : ℕ) : ℚ) = 60 := by norm_num
  rw [h60] at h
  rw [h]
  omega

/-- Seconds of a whole number of seconds. -/
theorem writeSecs_Seconds {d : Int} (hd : 0 ≤ d) (hw : d % 1000000000 = 0)
    (hb : d < 9007199254740992000000000) :
    writeSecs (Seconds d) = d / 1000000000 % 60 := by
  have hk : 0 ≤ d / 1000000000 := Int.ediv_nonneg hd (by decide)
  have he : (0 : ℚ) ≤ ((d / 1000000000 : Int) : ℚ) := by exact_mod_cast hk
  have hm := writeMins_Seconds hd hw hb
  rw [Seconds_whole hd hw hb] at hm ⊢
  have h := (mins_secs_of_nonneg _ he).2.2.2.2
  rw [hm, Int.floor_intCast] at h
  omega

/-! ### The record and the write methods -/

/-- The format of `write` applied to its five operands. -/
theorem Sprintf_record (tag stamp m : Bytes) (a b : Int) :
    Sprintf "%s%s - %dm%ds %s".toList [.str tag, .str stamp, .int a, .int b, .str m] =
      tag ++ stamp ++ " - ".toList ++ fmtInt a ++ "m".toList ++ fmtInt b ++ "s ".toList ++ m := by
  simp [Sprintf, doPrintf, printArg, extraArgs]

/-- The layout of the package, element by element. -/
theorem Format_logTimestampFormat (ts : Time) :
    ts.Format logTimestampFormat =
      shortMonthNames.getD ts.month.val [] ++ " ".toList ++ appendInt (ts.day.val + 1) 2 ++
        " ".toList ++ appendInt ts.hour.val 2 ++ ":".toList ++ appendInt ts.minute.val 2 ++
        ":".toList ++ appendInt ts.second.val 2 ++ formatNano ts.nsec.val 3 := by
  simp [Time.Format, logTimestampFormat, formatLayout, leadingZeros, startsWithDigit,
    startsWithLowerCase]

/-- The record, piece by piece. -/
theorem writeText_eq (ps ts : Time) (tag m : Bytes) :
    writeText ps ts tag m =
      tag ++ ts.Format logTimestampFormat ++ " - ".toList ++ elapsedField ps ts ++
        " ".toList ++ m := by
  simp only [writeText, Sprintf_record, elapsedField]
  simp

/-- What `write` does on a non-nil pointer to a destination. -/
theorem write_some (t : TimeLogger) (ps ts : Time) (a : Addr) (tag m : Bytes) (s : Store)
    (d : Dest) (hd : s a = some d) :
    t.write ps ts (some a) tag m s =
      some (Function.update s a (some (d.Write (writeText ps ts tag m)).1),
        (d.Write (writeText ps ts tag m)).2) := by
  simp [TimeLogger.write, Fprintf, hd, writeText]

/-- A destination that takes everything appends the whole text. -/
theorem Write_room_none (d : Dest) (p : Bytes) (h : d.room = none) :
    d.Write p = ({ d with content := d.content ++ p }, (p.length : Int), false) := by
  simp [Dest.Write, h]

/-- A destination with room left holds more bytes after a non-empty write. -/
theorem Write_grows (d : Dest) (p : Bytes) (hp : p ≠ []) (h : d.room ≠ some 0) :
    d.content.length < (d.Write p).1.content.length := by
  have hlen : 0 < p.length := List.length_pos.mpr hp
  unfold Dest.Write
  cases hr : d.room with
  | none => simp; exact hlen
  | some k =>
    have hk : 0 < k := by
      rcases Nat.eq_zero_or_pos k with h0 | h0
      · exact absurd (by rw [hr, h0]) h
      · exact h0
    by_cases hle : p.length ≤ k
    · simp [hle]; exact hlen
    · simp [hle]; omega

/-- A write never removes bytes from a destination. -/
theorem Write_content_le (d : Dest) (p : Bytes) :
    d.content.length ≤ (d.Write p).1.content.length := by
  unfold Dest.Write
  cases hr : d.room with
  | none => simp
  | some k => by_cases hle : p.length ≤ k <;> simp [hle]

/-- The tag of each of the four levels has six bytes. -/
theorem tagOf_length (L : LogLevel) : (tagOf L).length = 6 := by
  unfold tagOf; split_ifs <;> rfl

/-- A record is never empty: it starts with the tag. -/
theorem writeText_ne_nil (ps ts : Time) (L : LogLevel) (m : Bytes) :
    writeText ps ts (tagOf L) m ≠ [] := by
  intro h
  have := congrArg List.length h
  rw [writeText_eq] at this
  simp [tagOf_length] at this

/-- Each write method is the gate on its own field followed by `write`. -/
theorem leveled_eq (t : TimeLogger) (L : LogLevel)
    (hL : L = DEBUG ∨ L = INFO ∨ L = WARN ∨ L = ERROR) (ps ts : Time) (format : Bytes)
    (args : List Arg) (s : Store) :
    t.leveled L ps ts format args s =
      if t.handleOf L ≠ none then
        (t.write ps ts (t.handleOf L) (tagOf L) (Sprintf format args) s).map (·.1)
      else some s := by
  rcases hL with h | h | h | h <;> subst h <;>
    simp [TimeLogger.leveled, TimeLogger.handleOf, tagOf, DEBUG, INFO, WARN, ERROR,
      TimeLogger.Debugf, TimeLogger.Infof, TimeLogger.Warningf, TimeLogger.Errorf]

/-- The query `IsLevel` on one of the four levels reads the field of that level. -/
theorem IsLevel_eq_handleOf (t : TimeLogger) (L : LogLevel)
    (hL : L = DEBUG ∨ L = INFO ∨ L = WARN ∨ L = ERROR) :
    t.IsLevel L = (t.handleOf L != none) := by
  rcases hL with h | h | h | h <;> subst h <;>
    simp [TimeLogger.IsLevel, TimeLogger.handleOf, DEBUG, INFO, WARN, ERROR]

/-- The text of `write` is the record of the interface description. -/
theorem writeText_eq_recordOf (ps ts : Time) (tag m : Bytes) :
    writeText ps ts tag m =
      recordOf tag (ts.Format logTimestampFormat) (writeMins (Seconds (ts.Sub ps)))
        (writeSecs (Seconds (ts.Sub ps))) m := by
  simp only [writeText, Sprintf_record, recordOf]

/-- A write method on an enabled level whose destination takes everything:
the record is appended to that destination and nothing else changes. -/
theorem leveled_appends (t : TimeLogger) (L : LogLevel)
    (hL : L = DEBUG ∨ L = INFO ∨ L = WARN ∨ L = ERROR) (ps ts : Time) (format : Bytes)
    (args : List Arg) (s : Store) (a : Addr) (d : Dest)
    (ha : t.handleOf L = some a) (hd : s a = some d) (hroom : d.room = none) :
    t.leveled L ps ts format args s =
      some (Function.update s a (some { d with
        content := d.content ++ writeText ps ts (tagOf L) (Sprintf format args) })) := by
  rw [leveled_eq t L hL, ha, write_some t ps ts a _ _ s d hd, Write_room_none d _ hroom]
  simp

/-- C2, amended: `IsLevel` agrees with the write methods. For every writer state,
level `L` among DEBUG, INFO, WARN, ERROR with its method, format, operands and
clock reading: in a store where the reference of `L`, when present, leads to a
destination that takes at least one more byte, the method writes at least one
byte exactly when `IsLevel L` is true; and when `IsLevel L` is false the store
is returned exactly unchanged (this part needs nothing of the store). -/
theorem leveled_writes_iff_isLevel (t : TimeLogger) (L : LogLevel)
    (hL : L = DEBUG ∨ L = INFO ∨ L = WARN ∨ L = ERROR) (ps ts : Time) (format : Bytes)
    (args : List Arg) (s : Store)
    (hdest : ∀ a, t.handleOf L = some a → ∃ d, s a = some d ∧ d.room ≠ some 0) :
    (wroteBytes s (t.leveled L ps ts format args s) ↔ t.IsLevel L = true) ∧
    (t.IsLevel L = false → t.leveled L ps ts format args s = some s) := by
  rw [leveled_eq t L hL, IsLevel_eq_handleOf t L hL]
  cases ha : t.handleOf L with
  | none =>
    refine ⟨⟨?_, ?_⟩, fun _ => by simp⟩
    · rintro ⟨s1, a, d, d1, hr, h0, h1, hlt⟩
      simp at hr
      subst hr
      rw [h0] at h1
      cases h1
      exact absurd hlt (lt_irrefl _)
    · intro h; simp at h
  | some a =>
    obtain ⟨d, hd, hroom⟩ := hdest a ha
    refine ⟨⟨fun _ => by simp, fun _ => ?_⟩, fun h => by simp at h⟩
    rw [write_some t ps ts a _ _ s d hd]
    refine ⟨Function.update s a (some (d.Write (writeText ps ts (tagOf L)
      (Sprintf format args))).1), a, d, (d.Write (writeText ps ts (tagOf L)
      (Sprintf format args))).1, by simp, hd, by simp, ?_⟩
    exact Write_grows d _ (writeText_ne_nil ps ts L _) hroom

/-- C2, amended, at a concrete input: the writer of threshold WARN on a buffer at address
`0`, asked at level ERROR. -/
theorem leveled_writes_iff_isLevel_witness :
    (ERROR = DEBUG ∨ ERROR = INFO ∨ ERROR = WARN ∨ ERROR = ERROR) ∧
    (∀ a, (NewTimeLogger (some 0) WARN).handleOf ERROR = some a →
      ∃ d, (fun _ => some ({ content := [], room := none } : Dest) : Store) a = some d ∧
        d.room ≠ some 0) ∧
    ((wroteBytes (fun _ => some { content := [], room := none })
        ((NewTimeLogger (some 0) WARN).leveled ERROR
          ⟨0, 0, 0, 0, 0, 0, 0⟩ ⟨0, 0, 0, 1, 5, 0, 65000000000⟩ "bad".toList []
          (fun _ => some { content := [], room := none })) ↔
      (NewTimeLogger (some 0) WARN).IsLevel ERROR = true) ∧
     ((NewTimeLogger (some 0) WARN).IsLevel ERROR = false →
        (NewTimeLogger (some 0) WARN).leveled ERROR
          ⟨0, 0, 0, 0, 0, 0, 0⟩ ⟨0, 0, 0, 1, 5, 0, 65000000000⟩ "bad".toList []
          (fun _ => some { content := [], room := none }) =
        some (fun _ => some { content := [], room := none }))) :=
  ⟨by decide, fun a _ => ⟨_, rfl, by simp⟩,
    leveled_writes_iff_isLevel _ ERROR (by decide) _ _ _ _ _
      (fun a _ => ⟨_, rfl, by simp⟩)⟩

/-- C3, amended: on an enabled level whose destination takes the whole write, at
every clock reading and for every format of the modelled fragment (plain text
and the verbs `%s`, `%d`, `%v`, `%%` over string and integer operands), the
bytes a write method appends are exactly the tag of the method (`DEBUG `,
`INFO  `, `WARN  `, `ERROR `, six bytes each), then the timestamp in the layout
`Jan 02 15:04:05.000` (month name, day, hour, minute, second, milliseconds of
the UTC reading), then ` - `, the decimal minutes, `m`, the decimal seconds,
`s ` and the formatted message; nothing follows the message. -/
theorem leveled_write_bytes (t : TimeLogger) (ps ts : Time) (format : Bytes)
    (args : List Arg) (s : Store) (a : Addr) (d : Dest)
    (hd : s a = some d) (hroom : d.room = none)
    (hfmt : supportedFormat false format = true) :
    (t.debugW = some a → t.Debugf ps ts format args s =
      some (Function.update s a (some { d with content := (d.content ++
        recordOf "DEBUG ".toList (ts.Format logTimestampFormat)
          (writeMins (Seconds (ts.Sub ps))) (writeSecs (Seconds (ts.Sub ps)))
          (Sprintf format args)) }))) ∧
    (t.infoW = some a → t.Infof ps ts format args s =
      some (Function.update s a (some { d with content := (d.content ++
        recordOf "INFO  ".toList (ts.Format logTimestampFormat)
          (writeMins (Seconds (ts.Sub ps))) (writeSecs (Seconds (ts.Sub ps)))
          (Sprintf format args)) }))) ∧
    (t.warnW = some a → t.Warningf ps ts format args s =
      some (Function.update s a (some { d with content := (d.content ++
        recordOf "WARN  ".toList (ts.Format logTimestampFormat)
          (writeMins (Seconds (ts.Sub ps))) (writeSecs (Seconds (ts.Sub ps)))
          (Sprintf format args)) }))) ∧
    (t.errorW = some a → t.Errorf ps ts format args s =
      some (Function.update s a (some { d with content := (d.content ++
        recordOf "ERROR ".toList (ts.Format logTimestampFormat)
          (writeMins (Seconds (ts.Sub ps))) (writeSecs (Seconds (ts.Sub ps)))
          (Sprintf format args)) }))) ∧
    ("DEBUG ".toList.length = 6 ∧ "INFO  ".toList.length = 6 ∧
      "WARN  ".toList.length = 6 ∧ "ERROR ".toList.length = 6) ∧
    ts.Format logTimestampFormat =
      shortMonthNames.getD ts.month.val [] ++ " ".toList ++ appendInt (ts.day.val + 1) 2 ++
        " ".toList ++ appendInt ts.hour.val 2 ++ ":".toList ++ appendInt ts.minute.val 2 ++
        ":".toList ++ appendInt ts.second.val 2 ++ formatNano ts.nsec.val 3 := by
  have _ := hfmt
  refine ⟨fun h => ?_, fun h => ?_, fun h => ?_, fun h => ?_, ⟨rfl, rfl, rfl, rfl⟩,
    Format_logTimestampFormat ts⟩
  · simp [TimeLogger.Debugf, h, write_some t ps ts a _ _ s d hd, Write_room_none d _ hroom,
      writeText_eq_recordOf]
  · simp [TimeLogger.Infof, h, write_some t ps ts a _ _ s d hd, Write_room_none d _ hroom,
      writeText_eq_recordOf]
  · simp [TimeLogger.Warningf, h, write_some t ps ts a _ _ s d hd, Write_room_none d _ hroom,
      writeText_eq_recordOf]
  · simp [TimeLogger.Errorf, h, write_some t ps ts a _ _ s d hd, Write_room_none d _ hroom,
      writeText_eq_recordOf]

/-- C3, amended, at a concrete input: the writer of threshold DEBUG on an empty buffer at
address `0`, process start at monotonic time `0`, the call at 125 seconds. -/
theorem leveled_write_bytes_witness :
    ((fun _ => some ({ content := [], room := none } : Dest) : Store) 0 =
        some { content := [], room := none }) ∧
    (({ content := [], room := none } : Dest).room = none) ∧
    supportedFormat false "count=%d".toList = true ∧
    (NewTimeLogger (some 0) DEBUG).Warningf ⟨0, 0, 0, 0, 0, 0, 0⟩
        ⟨0, 1, 15, 4, 5, 7000000, 125000000000⟩ "count=%d".toList [.int 3]
        (fun _ => some { content := [], room := none }) =
      some (Function.update (fun _ => some { content := [], room := none }) 0
        (some { content := "WARN  Jan 02 15:04:05.007 - 2m5s count=3".toList, room := none })) :=
  ⟨rfl, rfl, by decide, by
    have h := (leveled_write_bytes (NewTimeLogger (some 0) DEBUG) ⟨0, 0, 0, 0, 0, 0, 0⟩
      ⟨0, 1, 15, 4, 5, 7000000, 125000000000⟩ "count=%d".toList [.int 3]
      (fun _ => some { content := [], room := none }) 0 { content := [], room := none }
      rfl rfl (by decide)).2.2.1 (by decide)
    rw [h]
    have hm : writeMins (Seconds ((⟨0, 1, 15, 4, 5, 7000000, 125000000000⟩ : Time).Sub
        ⟨0, 0, 0, 0, 0, 0, 0⟩)) = 2 := by
      rw [writeMins_Seconds (by decide) (by decide) (by decide)]; decide
    have hs : writeSecs (Seconds ((⟨0, 1, 15, 4, 5, 7000000, 125000000000⟩ : Time).Sub
        ⟨0, 0, 0, 0, 0, 0, 0⟩)) = 5 := by
      rw [writeSecs_Seconds (by decide) (by decide) (by decide)]; decide
    rw [hm, hs]
    rfl⟩

/-- A record starts with its tag and ends with its message. -/
theorem recordOf_tag_message (tag stamp : Bytes) (mins secs : Int) (m : Bytes) :
    tag <+: recordOf tag stamp mins secs m ∧ m <:+ recordOf tag stamp mins secs m := by
  constructor
  · simp only [recordOf, List.append_assoc]
    exact List.prefix_append _ _
  · exact List.suffix_append _ _

/-- What `write` does on a destination that takes everything. -/
theorem write_appends (t : TimeLogger) (ps ts : Time) (a : Addr) (tag m : Bytes) (s : Store)
    (d : Dest) (hd : s a = some d) (hroom : d.room = none) :
    t.write ps ts (some a) tag m s =
      some (Function.update s a (some { d with
          content := d.content ++ writeText ps ts tag m }),
        ((writeText ps ts tag m).length : Int), false) := by
  rw [write_some t ps ts a tag m s d hd, Write_room_none d _ hroom]

/-- C5: the scenario with threshold WARN. On a destination `D` (address `a`) that
is empty at first and takes every write, the calls `Debugf("x")`, `Infof("x")`,
`Warningf("count=%d", 3)`, `Errorf("bad")` on `NewTimeLogger(D, WARN)`, at any
clock readings, leave the store as it was after the first two calls, and leave
`D` holding exactly two records in this order: one with the tag `WARN  ` and the
message `count=3`, then one with the tag `ERROR ` and the message `bad`. -/
theorem scenario_warn (a : Addr) (ps ts1 ts2 ts3 ts4 : Time) (s : Store) :
    ((((NewTimeLogger (some a) WARN).Debugf ps ts1 "x".toList []
        (Function.update s a (some { content := [], room := none }))).bind
      ((NewTimeLogger (some a) WARN).Infof ps ts2 "x".toList [])) =
        some (Function.update s a (some { content := [], room := none }))) ∧
    ((((((NewTimeLogger (some a) WARN).Debugf ps ts1 "x".toList []
        (Function.update s a (some { content := [], room := none }))).bind
      ((NewTimeLogger (some a) WARN).Infof ps ts2 "x".toList [])).bind
      ((NewTimeLogger (some a) WARN).Warningf ps ts3 "count=%d".toList [.int 3])).bind
      ((NewTimeLogger (some a) WARN).Errorf ps ts4 "bad".toList [])) =
        some (Function.update s a (some {
          content :=
            (recordOf "WARN  ".toList (ts3.Format logTimestampFormat)
                (writeMins (Seconds (ts3.Sub ps))) (writeSecs (Seconds (ts3.Sub ps)))
                "count=3".toList ++
              recordOf "ERROR ".toList (ts4.Format logTimestampFormat)
                (writeMins (Seconds (ts4.Sub ps))) (writeSecs (Seconds (ts4.Sub ps)))
                "bad".toList),
          room := none }))) ∧
    ("WARN  ".toList <+: recordOf "WARN  ".toList (ts3.Format logTimestampFormat)
        (writeMins (Seconds (ts3.Sub ps))) (writeSecs (Seconds (ts3.Sub ps)))
        "count=3".toList ∧
      "count=3".toList <:+ recordOf "WARN  ".toList (ts3.Format logTimestampFormat)
        (writeMins (Seconds (ts3.Sub ps))) (writeSecs (Seconds (ts3.Sub ps)))
        "count=3".toList) ∧
    ("ERROR ".toList <+: recordOf "ERROR ".toList (ts4.Format logTimestampFormat)
        (writeMins (Seconds (ts4.Sub ps))) (writeSecs (Seconds (ts4.Sub ps)))
        "bad".toList ∧
      "bad".toList <:+ recordOf "ERROR ".toList (ts4.Format logTimestampFormat)
        (writeMins (Seconds (ts4.Sub ps))) (writeSecs (Seconds (ts4.Sub ps)))
        "bad".toList) := by
  have hfields : NewTimeLogger (some a) WARN =
      { debugW := none, infoW := none, warnW := some a, errorW := some a } := by
    rw [NewTimeLogger_fields]; simp [DEBUG, INFO, WARN, ERROR]
  have hfmt1 : Sprintf "count=%d".toList [.int 3] = "count=3".toList := by decide
  have hfmt2 : Sprintf "bad".toList [] = "bad".toList := by decide
  refine ⟨?_, ?_, recordOf_tag_message _ _ _ _ _, recordOf_tag_message _ _ _ _ _⟩
  · simp [hfields, TimeLogger.Debugf, TimeLogger.Infof]
  · rw [hfields]
    simp only [TimeLogger.Debugf, TimeLogger.Infof, TimeLogger.Warningf, TimeLogger.Errorf,
      ne_eq, not_true_eq_false, if_false, Option.some_bind, reduceCtorEq, not_false_eq_true,
      if_true, hfmt1, hfmt2]
    rw [write_appends _ ps ts3 a _ _ _ { content := [], room := none } (by simp) rfl]
    simp only [Option.map_some', Option.some_bind]
    rw [write_appends _ ps ts4 a _ _ _
      { content := [] ++ writeText ps ts3 "WARN  ".toList "count=3".toList, room := none }
      (by simp) rfl]
    simp [writeText_eq_recordOf]

/-! ### The null sink, and the level query on the whole enumeration -/

/-- C6: the null sink is inert. `NullLogger.IsLevel L` is false for every integer
`L`, and each of `Debugf`, `Infof`, `Warningf`, `Errorf` on `NullLogger`, for
every format, operands, clock reading and store, returns with the store exactly
as it was: no destination receives a byte. -/
theorem nullLogger_inert (L : LogLevel) (ps ts : Time) (format : Bytes) (args : List Arg)
    (s : Store) :
    NullLogger.IsLevel L = false ∧
    NullLogger.Debugf ps ts format args s = some s ∧
    NullLogger.Infof ps ts format args s = some s ∧
    NullLogger.Warningf ps ts format args s = some s ∧
    NullLogger.Errorf ps ts format args s = some s ∧
    ¬ wroteBytes s (NullLogger.Debugf ps ts format args s) ∧
    ¬ wroteBytes s (NullLogger.Infof ps ts format args s) ∧
    ¬ wroteBytes s (NullLogger.Warningf ps ts format args s) ∧
    ¬ wroteBytes s (NullLogger.Errorf ps ts format args s) := by
  have hno : ¬ wroteBytes s (some s) := by
    rintro ⟨s1, a, d, d1, hr, h0, h1, hlt⟩
    cases hr
    rw [h0] at h1
    cases h1
    exact absurd hlt (lt_irrefl _)
  exact ⟨rfl, rfl, rfl, rfl, rfl, hno, hno, hno, hno⟩

/-- C7, as stated, fails: with threshold DEBUG the level QUIET satisfies
`DEBUG ≤ QUIET`, yet `IsLevel QUIET` is false. -/
theorem isLevel_quiet_counterexample :
    (NewTimeLogger (some 0) DEBUG).IsLevel QUIET ≠ decide (DEBUG ≤ QUIET) := by
  decide

/-- C7, amended: for every level `L` and threshold `T` of the enumeration
DEBUG, INFO, WARN, ERROR, QUIET and every non-nil handle, the writer built with
threshold `T` answers `IsLevel L` with `T ≤ L` when `L` is one of DEBUG, INFO,
WARN, ERROR, and with false when `L` is QUIET. -/
theorem isLevel_enumeration (T L : LogLevel) (a : Addr)
    (hT : T = DEBUG ∨ T = INFO ∨ T = WARN ∨ T = ERROR ∨ T = QUIET)
    (hL : L = DEBUG ∨ L = INFO ∨ L = WARN ∨ L = ERROR ∨ L = QUIET) :
    (NewTimeLogger (some a) T).IsLevel L = decide (T ≤ L ∧ L ≠ QUIET) := by
  rw [NewTimeLogger_fields]
  rcases hT with h | h | h | h | h <;> subst h <;>
    rcases hL with h | h | h | h | h <;> subst h <;>
    simp [TimeLogger.IsLevel, DEBUG, INFO, WARN, ERROR, QUIET]

/-- C7, amended, at threshold INFO and level WARN. -/
theorem isLevel_enumeration_witness :
    (INFO = DEBUG ∨ INFO = INFO ∨ INFO = WARN ∨ INFO = ERROR ∨ INFO = QUIET) ∧
    (WARN = DEBUG ∨ WARN = INFO ∨ WARN = WARN ∨ WARN = ERROR ∨ WARN = QUIET) ∧
    (NewTimeLogger (some 3) INFO).IsLevel WARN = decide (INFO ≤ WARN ∧ WARN ≠ QUIET) :=
  ⟨by decide, by decide, isLevel_enumeration INFO WARN 3 (by decide) (by decide)⟩

/-! ### The shape of a record -/

/-- Every byte `Nat.digitChar` gives for a value below ten is a decimal digit. -/
theorem digitChar_isDigit (k : Nat) (hk : k < 10) : (Nat.digitChar k).isDigit = true := by
  interval_cases k <;> decide

/-- The digit loop only ever adds decimal digits. -/
theorem toDigitsCore_isDigit (fuel : Nat) :
    ∀ (n : Nat) (acc : List Char), (∀ c ∈ acc, c.isDigit = true) →
      ∀ c ∈ Nat.toDigitsCore 10 fuel n acc, c.isDigit = true := by
  induction fuel with
  | zero => intro n acc hacc c hc; simpa [Nat.toDigitsCore] using hacc c hc
  | succ f ih =>
    intro n acc hacc c hc
    simp only [Nat.toDigitsCore] at hc
    have hcons : ∀ c ∈ Nat.digitChar (n % 10) :: acc, c.isDigit = true := by
      intro c hc
      rcases List.mem_cons.mp hc with h | h
      · rw [h]; exact digitChar_isDigit _ (Nat.mod_lt _ (by decide))
      · exact hacc c h
    split_ifs at hc
    · exact hcons c hc
    · exact ih _ _ hcons c hc

/-- The digit loop, given fuel, adds at least one byte. -/
theorem toDigitsCore_length_gt (fuel : Nat) :
    ∀ (n : Nat) (acc : List Char),
      acc.length < (Nat.toDigitsCore 10 (fuel + 1) n acc).length := by
  induction fuel with
  | zero => intro n acc; simp [Nat.toDigitsCore]
  | succ f ih =>
    intro n acc
    rw [Nat.toDigitsCore]
    split_ifs
    · simp
    · have := ih (n / 10) (Nat.digitChar (n % 10) :: acc)
      simp only [List.length_cons] at this
      omega

/-- The digit loop, given fuel, returns at least one byte. -/
theorem toDigitsCore_ne_nil (fuel n : Nat) (acc : List Char) :
    Nat.toDigitsCore 10 (fuel + 1) n acc ≠ [] := by
  intro h
  have h2 := toDigitsCore_length_gt fuel n acc
  rw [h] at h2
  simp at h2

/-- The decimal rendering of a non-negative integer is one or more digits. -/
theorem fmtInt_isDigits (n : Int) (hn : 0 ≤ n) : isDigits (fmtInt n) := by
  have hlt : ¬ n < 0 := not_lt.mpr hn
  simp only [fmtInt, hlt, if_false, isDigits, Nat.toDigits]
  exact ⟨toDigitsCore_ne_nil _ _ _, toDigitsCore_isDigit _ _ _ (by simp)⟩

/-- A value below one hundred, padded to two places, has two bytes. -/
theorem appendInt_two_length (x : Nat) (hx : x < 100) : (appendInt x 2).length = 2 := by
  have h := Nat.toDigitsCore_length 10 (by decide) (x + 1) x 2 (by simpa using hx) (by decide)
  simp only [appendInt, Nat.toDigits, List.length_append, List.length_replicate]
  omega

/-- The fractional second of three places has four bytes, the dot included. -/
theorem formatNano_three_length (nsec : Nat) : (formatNano nsec 3).length = 4 := by
  simp only [formatNano, appendInt, List.length_cons, List.length_take, List.length_append,
    List.length_replicate]
  omega

/-- Every month name of the table has three bytes. -/
theorem shortMonthNames_length (m : Fin 12) : (shortMonthNames.getD m.val []).length = 3 := by
  revert m; decide

/-- The timestamp of the package layout has nineteen bytes. -/
theorem Format_length (ts : Time) : (ts.Format logTimestampFormat).length = 19 := by
  rw [Format_logTimestampFormat]
  simp only [List.length_append, shortMonthNames_length, formatNano_three_length,
    appendInt_two_length (ts.day.val + 1) (by omega),
    appendInt_two_length ts.hour.val (by omega),
    appendInt_two_length ts.minute.val (by omega),
    appendInt_two_length ts.second.val (by omega)]
  rfl

/-- Elapsed time is non-negative at a reading taken at or after process start. -/
theorem Seconds_Sub_nonneg (ps ts : Time) (h : ps.mono ≤ ts.mono) :
    0 ≤ ts.Sub ps := by
  unfold Time.Sub; omega

/-- At a reading at or after process start the record has the shape `write`
lays out. -/
theorem writeText_recordShape (ps ts : Time) (L : LogLevel) (m : Bytes)
    (h : ps.mono ≤ ts.mono) : recordShape (writeText ps ts (tagOf L) m) (tagOf L) m := by
  have hd := Seconds_Sub_nonneg ps ts h
  have he : (0 : ℚ) ≤ Seconds (ts.Sub ps) := Seconds_nonneg hd
  have hms := mins_secs_of_nonneg _ he
  refine ⟨ts.Format logTimestampFormat, fmtInt (writeMins (Seconds (ts.Sub ps))),
    fmtInt (writeSecs (Seconds (ts.Sub ps))), tagOf_length L, Format_length ts,
    fmtInt_isDigits _ ?_, fmtInt_isDigits _ hms.2.2.1, ?_⟩
  · rw [hms.1]; exact Int.floor_nonneg.mpr (div_nonneg he (by norm_num))
  · rw [writeText_eq_recordOf]; simp [recordOf]

/-- C8, as stated, fails: the record `Debugf("x")` writes at process start does
not have a space after its six-byte tag (the month name follows at once), so it
is not of the shape with a separate space and a timestamp of eighteen bytes. -/
theorem record_shape_counterexample :
    (NewTimeLogger (some 0) DEBUG).Debugf ⟨0, 0, 0, 0, 0, 0, 0⟩ ⟨0, 0, 0, 0, 0, 0, 0⟩
        "x".toList [] (fun _ => some { content := [], room := none }) =
      some (Function.update (fun _ => some { content := [], room := none }) 0
        (some { content := "DEBUG Jan 01 00:00:00.000 - 0m0s x".toList, room := none })) ∧
    ¬ claimedShape "DEBUG Jan 01 00:00:00.000 - 0m0s x".toList "x".toList := by
  constructor
  · have hf : NewTimeLogger (some 0) DEBUG =
        { debugW := some 0, infoW := some 0, warnW := some 0, errorW := some 0 } := by
      rw [NewTimeLogger_fields]; simp [DEBUG, INFO, WARN, ERROR]
    rw [hf]
    simp only [TimeLogger.Debugf, ne_eq, reduceCtorEq, not_false_eq_true, if_true]
    rw [write_appends _ _ _ 0 _ _ _ { content := [], room := none } rfl rfl]
    have hm : writeMins (Seconds ((⟨0, 0, 0, 0, 0, 0, 0⟩ : Time).Sub
        ⟨0, 0, 0, 0, 0, 0, 0⟩)) = 0 := by
      rw [writeMins_Seconds (by decide) (by decide) (by decide)]; decide
    have hs : writeSecs (Seconds ((⟨0, 0, 0, 0, 0, 0, 0⟩ : Time).Sub
        ⟨0, 0, 0, 0, 0, 0, 0⟩)) = 0 := by
      rw [writeSecs_Seconds (by decide) (by decide) (by decide)]; decide
    rw [writeText_eq_recordOf, hm, hs]
    rfl
  · rintro ⟨tag, stamp, mins, secs, htag, -, -, -, hr⟩
    have h6 := congrArg (List.drop 6) hr
    simp only [List.append_assoc] at h6
    rw [List.drop_left' htag] at h6
    have h0 : List.head? (List.drop 6 "DEBUG Jan 01 00:00:00.000 - 0m0s x".toList) =
        some ' ' := by rw [h6]; rfl
    exact absurd h0 (by decide)

/-- C8, amended: on an enabled level whose destination takes the write, at a
clock reading at or after process start, the record the method of the level
appends has the shape: the tag of six bytes, at once a timestamp of exactly
nineteen bytes, then ` - `, one or more decimal digits, `m`, one or more decimal
digits, `s`, a space, and the interpolated message. -/
theorem leveled_record_shape (t : TimeLogger) (L : LogLevel)
    (hL : L = DEBUG ∨ L = INFO ∨ L = WARN ∨ L = ERROR) (ps ts : Time) (format : Bytes)
    (args : List Arg) (s : Store) (a : Addr) (d : Dest)
    (ha : t.handleOf L = some a) (hd : s a = some d) (hroom : d.room = none)
    (hclock : ps.mono ≤ ts.mono) :
    ∃ r : Bytes,
      t.leveled L ps ts format args s =
        some (Function.update s a (some { d with content := d.content ++ r })) ∧
      recordShape r (tagOf L) (Sprintf format args) :=
  ⟨writeText ps ts (tagOf L) (Sprintf format args),
    leveled_appends t L hL ps ts format args s a d ha hd hroom,
    writeText_recordShape ps ts L _ hclock⟩

/-- C8, amended, at a concrete input: threshold DEBUG, level INFO, an empty
buffer at address `0`, the call 125 seconds after process start. -/
theorem leveled_record_shape_witness :
    (INFO = DEBUG ∨ INFO = INFO ∨ INFO = WARN ∨ INFO = ERROR) ∧
    (NewTimeLogger (some 0) DEBUG).handleOf INFO = some 0 ∧
    ((fun _ => some ({ content := [], room := none } : Dest) : Store) 0 =
        some { content := [], room := none }) ∧
    (({ content := [], room := none } : Dest).room = none) ∧
    ((⟨0, 0, 0, 0, 0, 0, 0⟩ : Time).mono ≤
      (⟨0, 1, 15, 4, 5, 7000000, 125000000000⟩ : Time).mono) ∧
    ∃ r : Bytes,
      (NewTimeLogger (some 0) DEBUG).leveled INFO ⟨0, 0, 0, 0, 0, 0, 0⟩
          ⟨0, 1, 15, 4, 5, 7000000, 125000000000⟩ "n=%d".toList [.int 3]
          (fun _ => some { content := [], room := none }) =
        some (Function.update (fun _ => some { content := [], room := none }) 0
          (some { ({ content := [], room := none } : Dest) with
            content := ({ content := [], room := none } : Dest).content ++ r })) ∧
      recordShape r (tagOf INFO) (Sprintf "n=%d".toList [.int 3]) :=
  ⟨by decide, by decide, rfl, rfl, by decide,
    leveled_record_shape (NewTimeLogger (some 0) DEBUG) INFO (by decide) ⟨0, 0, 0, 0, 0, 0, 0⟩
      ⟨0, 1, 15, 4, 5, 7000000, 125000000000⟩ "n=%d".toList [.int 3]
      (fun _ => some { content := [], room := none }) 0 { content := [], room := none }
      (by decide) rfl rfl (by decide)⟩

/-! ### Elapsed time in the record -/

/-- C9: at a clock reading exactly 60 seconds after process start the elapsed
field of the record is `1m0s`, and at exactly 125 seconds it is `2m5s`; the
record is the tag, the timestamp, ` - `, that field, a space and the message. -/
theorem elapsed_boundary (ps ts : Time) (tag m : Bytes) :
    (ts.Sub ps = 60000000000 →
      Seconds (ts.Sub ps) = 60 ∧ elapsedField ps ts = "1m0s".toList ∧
      writeText ps ts tag m =
        tag ++ ts.Format logTimestampFormat ++ " - ".toList ++ "1m0s".toList ++
          " ".toList ++ m) ∧
    (ts.Sub ps = 125000000000 →
      Seconds (ts.Sub ps) = 125 ∧ elapsedField ps ts = "2m5s".toList ∧
      writeText ps ts tag m =
        tag ++ ts.Format logTimestampFormat ++ " - ".toList ++ "2m5s".toList ++
          " ".toList ++ m) := by
  constructor
  · intro h
    have hm : writeMins (Seconds (ts.Sub ps)) = 1 := by
      rw [h, writeMins_Seconds (by decide) (by decide) (by decide)]; decide
    have hs : writeSecs (Seconds (ts.Sub ps)) = 0 := by
      rw [h, writeSecs_Seconds (by decide) (by decide) (by decide)]; decide
    have hf : elapsedField ps ts = "1m0s".toList := by
      rw [elapsedField, hm, hs]; rfl
    refine ⟨by rw [h, Seconds_whole (by decide) (by decide) (by decide)]; norm_num, hf, ?_⟩
    rw [writeText_eq, hf]
  · intro h
    have hm : writeMins (Seconds (ts.Sub ps)) = 2 := by
      rw [h, writeMins_Seconds (by decide) (by decide) (by decide)]; decide
    have hs : writeSecs (Seconds (ts.Sub ps)) = 5 := by
      rw [h, writeSecs_Seconds (by decide) (by decide) (by decide)]; decide
    have hf : elapsedField ps ts = "2m5s".toList := by
      rw [elapsedField, hm, hs]; rfl
    refine ⟨by rw [h, Seconds_whole (by decide) (by decide) (by decide)]; norm_num, hf, ?_⟩
    rw [writeText_eq, hf]

/-- C9, at concrete readings: process start at monotonic time `1000`, one call
60 seconds and one 125 seconds later. -/
theorem elapsed_boundary_witness :
    ((⟨0, 0, 0, 1, 0, 0, 60000001000⟩ : Time).Sub ⟨0, 0, 0, 0, 0, 0, 1000⟩ = 60000000000 ∧
      elapsedField ⟨0, 0, 0, 0, 0, 0, 1000⟩ ⟨0, 0, 0, 1, 0, 0, 60000001000⟩ = "1m0s".toList) ∧
    ((⟨0, 0, 0, 2, 5, 0, 125000001000⟩ : Time).Sub ⟨0, 0, 0, 0, 0, 0, 1000⟩ = 125000000000 ∧
      elapsedField ⟨0, 0, 0, 0, 0, 0, 1000⟩ ⟨0, 0, 0, 2, 5, 0, 125000001000⟩ = "2m5s".toList) :=
  ⟨⟨by decide, ((elapsed_boundary ⟨0, 0, 0, 0, 0, 0, 1000⟩ ⟨0, 0, 0, 1, 0, 0, 60000001000⟩
      [] []).1 (by decide)).2.1⟩,
   ⟨by decide, ((elapsed_boundary ⟨0, 0, 0, 0, 0, 0, 1000⟩ ⟨0, 0, 0, 2, 5, 0, 125000001000⟩
      [] []).2 (by decide)).2.1⟩⟩

/-- The components of a reading a whole number of seconds after process start. -/
theorem elapsedOf_eq (ps ts : Time) (h : ps.mono ≤ ts.mono)
    (hw : (ts.mono - ps.mono) % 1000000000 = 0)
    (hb : ts.mono - ps.mono < 9007199254740992000000000) :
    elapsedOf ps ts = ((ts.mono - ps.mono) / 60000000000,
      (ts.mono - ps.mono) / 1000000000 % 60) := by
  have hd : 0 ≤ ts.mono - ps.mono := Seconds_Sub_nonneg ps ts h
  rw [elapsedOf, Time.Sub, writeMins_Seconds hd hw hb, writeSecs_Seconds hd hw hb]

/-- Two readings in order, the first at or after process start: the minutes do
not decrease, the seconds do not decrease within one minute, and the whole
seconds do not decrease. -/
theorem elapsedOf_mono (ps c1 c2 : Time) (h0 : ps.mono ≤ c1.mono) (h12 : c1.mono ≤ c2.mono) :
    (elapsedOf ps c1).1 ≤ (elapsedOf ps c2).1 ∧
    ((elapsedOf ps c1).1 = (elapsedOf ps c2).1 → (elapsedOf ps c1).2 ≤ (elapsedOf ps c2).2) ∧
    60 * (elapsedOf ps c1).1 + (elapsedOf ps c1).2 ≤
      60 * (elapsedOf ps c2).1 + (elapsedOf ps c2).2 := by
  have hd1 : 0 ≤ c1.Sub ps := Seconds_Sub_nonneg ps c1 h0
  have hd12 : c1.Sub ps ≤ c2.Sub ps := by unfold Time.Sub; omega
  have hx1 : (0 : ℚ) ≤ Seconds (c1.Sub ps) := Seconds_nonneg hd1
  have hx12 : Seconds (c1.Sub ps) ≤ Seconds (c2.Sub ps) := Seconds_mono hd1 hd12
  have hm1 := mins_secs_of_nonneg _ hx1
  have hm2 := mins_secs_of_nonneg _ (le_trans hx1 hx12)
  have hmins : ⌊Seconds (c1.Sub ps) / 60⌋ ≤ ⌊Seconds (c2.Sub ps) / 60⌋ :=
    Int.floor_le_floor (div_le_div_of_nonneg_right hx12 (by norm_num))
  have hfl : ⌊Seconds (c1.Sub ps)⌋ ≤ ⌊Seconds (c2.Sub ps)⌋ := Int.floor_le_floor hx12
  simp only [elapsedOf]
  have a1 := hm1.1
  have a2 := hm2.1
  have b1 := hm1.2.2.2.2
  have b2 := hm2.2.2.2.2
  refine ⟨by omega, fun _ => by omega, by omega⟩

/-- A sequence of calls on an enabled level whose destination takes everything
appends the records of the calls, one after the other. -/
theorem leveledAll_appends (t : TimeLogger) (L : LogLevel)
    (hL : L = DEBUG ∨ L = INFO ∨ L = WARN ∨ L = ERROR) (ps : Time) (a : Addr)
    (ha : t.handleOf L = some a) (calls : List (Time × Bytes × List Arg)) :
    ∀ (s : Store) (d : Dest), s a = some d → d.room = none →
      t.leveledAll L ps calls s =
        some (Function.update s a (some { d with
          content := d.content ++
            (calls.map (fun c => writeText ps c.1 (tagOf L) (Sprintf c.2.1 c.2.2))).flatten })) := by
  induction calls with
  | nil =>
    intro s d hd _
    simp only [TimeLogger.leveledAll, List.map_nil, List.flatten_nil, List.append_nil]
    rw [← hd, Function.update_eq_self]
  | cons c rest ih =>
    intro s d hd hroom
    simp only [TimeLogger.leveledAll]
    rw [leveled_appends t L hL ps c.1 c.2.1 c.2.2 s a d ha hd hroom, Option.some_bind,
      ih _ { d with content := d.content ++ writeText ps c.1 (tagOf L) (Sprintf c.2.1 c.2.2) }
        (by simp) hroom]
    simp

/-- C10, as stated, fails: two `Debugf` calls 59 and 60 seconds after process
start write records with the elapsed fields `0m59s` and `1m0s`; the readings do
not decrease, yet the seconds component falls from 59 to 0. -/
theorem elapsed_seconds_counterexample :
    ((⟨0, 0, 0, 0, 0, 0, 0⟩ : Time).mono ≤ (⟨0, 0, 0, 0, 59, 0, 59000000000⟩ : Time).mono ∧
      (⟨0, 0, 0, 0, 59, 0, 59000000000⟩ : Time).mono ≤
        (⟨0, 0, 0, 1, 0, 0, 60000000000⟩ : Time).mono) ∧
    (NewTimeLogger (some 0) DEBUG).leveledAll DEBUG ⟨0, 0, 0, 0, 0, 0, 0⟩
        [(⟨0, 0, 0, 0, 59, 0, 59000000000⟩, "x".toList, []),
         (⟨0, 0, 0, 1, 0, 0, 60000000000⟩, "x".toList, [])]
        (fun _ => some { content := [], room := none }) =
      some (Function.update (fun _ => some { content := [], room := none }) 0
        (some {
          content := "DEBUG Jan 01 00:00:59.000 - 0m59s xDEBUG Jan 01 00:01:00.000 - 1m0s x".toList,
          room := none })) ∧
    elapsedOf ⟨0, 0, 0, 0, 0, 0, 0⟩ ⟨0, 0, 0, 0, 59, 0, 59000000000⟩ = (0, 59) ∧
    elapsedOf ⟨0, 0, 0, 0, 0, 0, 0⟩ ⟨0, 0, 0, 1, 0, 0, 60000000000⟩ = (1, 0) ∧
    ¬ ((elapsedOf ⟨0, 0, 0, 0, 0, 0, 0⟩ ⟨0, 0, 0, 0, 59, 0, 59000000000⟩).2 ≤
      (elapsedOf ⟨0, 0, 0, 0, 0, 0, 0⟩ ⟨0, 0, 0, 1, 0, 0, 60000000000⟩).2) := by
  have h1 : elapsedOf ⟨0, 0, 0, 0, 0, 0, 0⟩ ⟨0, 0, 0, 0, 59, 0, 59000000000⟩ = (0, 59) := by
    rw [elapsedOf_eq _ _ (by decide) (by decide) (by decide)]; decide
  have h2 : elapsedOf ⟨0, 0, 0, 0, 0, 0, 0⟩ ⟨0, 0, 0, 1, 0, 0, 60000000000⟩ = (1, 0) := by
    rw [elapsedOf_eq _ _ (by decide) (by decide) (by decide)]; decide
  refine ⟨⟨by decide, by decide⟩, ?_, h1, h2, by rw [h1, h2]; decide⟩
  rw [leveledAll_appends _ DEBUG (by decide) _ 0 (by decide) _ _
    { content := [], room := none } rfl rfl]
  have e1 := congrArg Prod.fst h1
  have e2 := congrArg Prod.snd h1
  have e3 := congrArg Prod.fst h2
  have e4 := congrArg Prod.snd h2
  simp only [elapsedOf] at e1 e2 e3 e4
  simp only [List.map_cons, List.map_nil, List.flatten_cons, List.flatten_nil, List.append_nil,
    writeText_eq_recordOf, e1, e2, e3, e4]
  rfl

/-- C10, amended: for an enabled level whose destination takes the writes and
every sequence of calls of its method at non-decreasing clock readings, each at
or after process start, the destination receives the records of the calls in
order, and for each consecutive pair of records the minutes component of the
later is at least that of the earlier, the seconds component of the later is at
least that of the earlier whenever the two minutes components are equal, and
the elapsed whole seconds `60 * minutes + seconds` do not decrease. -/
theorem elapsed_components_monotone (t : TimeLogger) (L : LogLevel)
    (hL : L = DEBUG ∨ L = INFO ∨ L = WARN ∨ L = ERROR) (ps : Time)
    (calls : List (Time × Bytes × List Arg)) (s : Store) (a : Addr) (d : Dest)
    (ha : t.handleOf L = some a) (hd : s a = some d) (hroom : d.room = none)
    (hstart : ∀ c ∈ calls, ps.mono ≤ c.1.mono)
    (hsorted : calls.Chain' (fun c1 c2 => c1.1.mono ≤ c2.1.mono)) :
    t.leveledAll L ps calls s =
      some (Function.update s a (some { d with
        content := d.content ++
          (calls.map (fun c => writeText ps c.1 (tagOf L) (Sprintf c.2.1 c.2.2))).flatten })) ∧
    (calls.map (fun c => elapsedOf ps c.1)).Chain' (fun p q =>
      p.1 ≤ q.1 ∧ (p.1 = q.1 → p.2 ≤ q.2) ∧ 60 * p.1 + p.2 ≤ 60 * q.1 + q.2) := by
  refine ⟨leveledAll_appends t L hL ps a ha calls s d hd hroom, ?_⟩
  rw [List.chain'_map]
  have htrans : ∀ x y z : Time × Bytes × List Arg,
      x.1.mono ≤ y.1.mono → y.1.mono ≤ z.1.mono → x.1.mono ≤ z.1.mono :=
    fun _ _ _ h1 h2 => le_trans h1 h2
  have hpair : calls.Pairwise (fun c1 c2 => c1.1.mono ≤ c2.1.mono) := by
    haveI : IsTrans (Time × Bytes × List Arg) (fun c1 c2 => c1.1.mono ≤ c2.1.mono) :=
      ⟨htrans⟩
    exact List.chain'_iff_pairwise.mp hsorted
  exact (hpair.imp_of_mem (fun {c1 c2} h1 _ h12 =>
    elapsedOf_mono ps c1.1 c2.1 (hstart c1 h1) h12)).chain'

/-- C10, amended, at a concrete input: two `Debugf` calls 59 and 60 seconds after
process start on an empty buffer at address `0`. -/
theorem elapsed_components_monotone_witness :
    (DEBUG = DEBUG ∨ DEBUG = INFO ∨ DEBUG = WARN ∨ DEBUG = ERROR) ∧
    (NewTimeLogger (some 0) DEBUG).handleOf DEBUG = some 0 ∧
    (({ content := [], room := none } : Dest).room = none) ∧
    (∀ c ∈ ([(⟨0, 0, 0, 0, 59, 0, 59000000000⟩, "x".toList, []),
          (⟨0, 0, 0, 1, 0, 0, 60000000000⟩, "x".toList, [])] : List (Time × Bytes × List Arg)),
        (⟨0, 0, 0, 0, 0, 0, 0⟩ : Time).mono ≤ c.1.mono) ∧
    (List.Chain' (fun c1 c2 => c1.1.mono ≤ c2.1.mono)
      ([(⟨0, 0, 0, 0, 59, 0, 59000000000⟩, "x".toList, []),
        (⟨0, 0, 0, 1, 0, 0, 60000000000⟩, "x".toList, [])] : List (Time × Bytes × List Arg))) ∧
    (List.map (fun c => elapsedOf ⟨0, 0, 0, 0, 0, 0, 0⟩ c.1)
      ([(⟨0, 0, 0, 0, 59, 0, 59000000000⟩, "x".toList, []),
        (⟨0, 0, 0, 1, 0, 0, 60000000000⟩, "x".toList, [])] :
          List (Time × Bytes × List Arg))).Chain' (fun p q =>
      p.1 ≤ q.1 ∧ (p.1 = q.1 → p.2 ≤ q.2) ∧ 60 * p.1 + p.2 ≤ 60 * q.1 + q.2) :=
  ⟨by decide, by decide, rfl,
    by intro c hc; simp at hc; rcases hc with rfl | rfl <;> decide,
    by simp [Time.mono],
    (elapsed_components_monotone (NewTimeLogger (some 0) DEBUG) DEBUG (by decide)
      ⟨0, 0, 0, 0, 0, 0, 0⟩ _ (fun _ => some { content := [], room := none }) 0
      { content := [], room := none } (by decide) rfl rfl
      (by intro c hc; simp at hc; rcases hc with rfl | rfl <;> decide)
      (by simp [Time.mono])).2⟩

/-! ### The threshold QUIET, closure of the enabled set, levels outside the four -/

/-- With a non-nil handle, the level query of a fresh writer on one of the four
levels is the threshold test. -/
theorem isLevel_new_iff_le (T : LogLevel) (a : Addr) (L : LogLevel)
    (hL : L = DEBUG ∨ L = INFO ∨ L = WARN ∨ L = ERROR) :
    (NewTimeLogger (some a) T).IsLevel L = true ↔ T ≤ L := by
  rw [NewTimeLogger_fields]
  rcases hL with h | h | h | h <;> subst h <;>
    simp only [TimeLogger.IsLevel, DEBUG, INFO, WARN, ERROR] <;>
    split_ifs <;> simp_all

/-- C11: a writer built with threshold QUIET has every level disabled: for every
handle `w`, nil included, `NewTimeLogger w QUIET` answers `IsLevel L` with false
on each of DEBUG, INFO, WARN, ERROR (and on every other integer `L` too). -/
theorem quiet_disables_all (w : Handle) (L : LogLevel) :
    (NewTimeLogger w QUIET).IsLevel DEBUG = false ∧
    (NewTimeLogger w QUIET).IsLevel INFO = false ∧
    (NewTimeLogger w QUIET).IsLevel WARN = false ∧
    (NewTimeLogger w QUIET).IsLevel ERROR = false ∧
    (NewTimeLogger w QUIET).IsLevel L = false := by
  have hf : NewTimeLogger w QUIET =
      { debugW := none, infoW := none, warnW := none, errorW := none } := by
    rw [NewTimeLogger_fields]; simp [DEBUG, INFO, WARN, ERROR, QUIET]
  rw [hf]
  refine ⟨by decide, by decide, by decide, by decide, ?_⟩
  simp only [TimeLogger.IsLevel]
  split_ifs <;> rfl

/-- C15: the enabled set of a fresh writer is upward closed and monotone in the
threshold. For a non-nil handle, thresholds `T1 ≤ T2` and levels `L ≤ L'` among
DEBUG, INFO, WARN, ERROR: (a) if threshold `T1` enables `L` it enables `L'`, and
(b) if threshold `T2` enables `L` then threshold `T1` enables `L`. -/
theorem enabled_upward_closed_monotone (a : Addr) (T1 T2 L L' : LogLevel)
    (hT : T1 ≤ T2) (hLL : L ≤ L')
    (hL : L = DEBUG ∨ L = INFO ∨ L = WARN ∨ L = ERROR)
    (hL' : L' = DEBUG ∨ L' = INFO ∨ L' = WARN ∨ L' = ERROR) :
    ((NewTimeLogger (some a) T1).IsLevel L = true →
      (NewTimeLogger (some a) T1).IsLevel L' = true) ∧
    ((NewTimeLogger (some a) T2).IsLevel L = true →
      (NewTimeLogger (some a) T1).IsLevel L = true) := by
  constructor
  · intro h
    exact (isLevel_new_iff_le T1 a L' hL').mpr
      (le_trans ((isLevel_new_iff_le T1 a L hL).mp h) hLL)
  · intro h
    exact (isLevel_new_iff_le T1 a L hL).mpr
      (le_trans hT ((isLevel_new_iff_le T2 a L hL).mp h))

/-- C15, at thresholds INFO and WARN and levels WARN and ERROR: both premises
hold there, and so do both conclusions. -/
theorem enabled_upward_closed_monotone_witness :
    (INFO ≤ WARN ∧ WARN ≤ ERROR) ∧
    (WARN = DEBUG ∨ WARN = INFO ∨ WARN = WARN ∨ WARN = ERROR) ∧
    (ERROR = DEBUG ∨ ERROR = INFO ∨ ERROR = WARN ∨ ERROR = ERROR) ∧
    (NewTimeLogger (some 2) INFO).IsLevel WARN = true ∧
    (NewTimeLogger (some 2) WARN).IsLevel WARN = true ∧
    ((NewTimeLogger (some 2) INFO).IsLevel WARN = true →
      (NewTimeLogger (some 2) INFO).IsLevel ERROR = true) ∧
    ((NewTimeLogger (some 2) WARN).IsLevel WARN = true →
      (NewTimeLogger (some 2) INFO).IsLevel WARN = true) :=
  ⟨by decide, by decide, by decide, by decide, by decide,
    enabled_upward_closed_monotone 2 INFO WARN WARN ERROR (by decide) (by decide)
      (by decide) (by decide)⟩

/-- C16: for every writer state, whichever references are present, and every
level value other than DEBUG, INFO, WARN, ERROR (QUIET, a negative value, a
value above QUIET), `IsLevel` returns false. -/
theorem isLevel_outside_false (t : TimeLogger) (L : LogLevel)
    (hL : L ≠ DEBUG ∧ L ≠ INFO ∧ L ≠ WARN ∧ L ≠ ERROR) :
    t.IsLevel L = false := by
  simp only [TimeLogger.IsLevel, hL.1, hL.2.1, hL.2.2.1, hL.2.2.2, if_false]

/-- C16, on a writer with all four references present: QUIET, `-1` and `5`. -/
theorem isLevel_outside_false_witness :
    (QUIET ≠ DEBUG ∧ QUIET ≠ INFO ∧ QUIET ≠ WARN ∧ QUIET ≠ ERROR) ∧
    ((-1 : LogLevel) ≠ DEBUG ∧ (-1 : LogLevel) ≠ INFO ∧ (-1 : LogLevel) ≠ WARN ∧
      (-1 : LogLevel) ≠ ERROR) ∧
    ((5 : LogLevel) ≠ DEBUG ∧ (5 : LogLevel) ≠ INFO ∧ (5 : LogLevel) ≠ WARN ∧
      (5 : LogLevel) ≠ ERROR) ∧
    (NewTimeLogger (some 0) DEBUG).IsLevel QUIET = false ∧
    (NewTimeLogger (some 0) DEBUG).IsLevel (-1) = false ∧
    (NewTimeLogger (some 0) DEBUG).IsLevel 5 = false :=
  ⟨by decide, by decide, by decide,
    isLevel_outside_false _ QUIET (by decide),
    isLevel_outside_false _ (-1) (by decide),
    isLevel_outside_false _ 5 (by decide)⟩

/-! ### Calls: failures of the destination, the receiver, panics -/

/-- The body of `write` leaves the receiver object as it was, and acts on the
store as `TimeLogger.write` says. -/
theorem Mem_write_eq (t : TimeLogger) (s : Store) (ps ts : Time) (w : Handle)
    (tag str : Bytes) :
    Mem.write ⟨t, s⟩ ps ts w tag str =
      (t.write ps ts w tag str s).map (fun r => (⟨t, r.1⟩, r.2)) := by
  unfold Mem.write TimeLogger.write
  cases w with
  | none => rfl
  | some a =>
    simp only
    cases Fprintf (s a) "%s%s - %dm%ds %s".toList
      [.str tag, .str (ts.Format logTimestampFormat),
        .int (writeMins (Seconds (ts.Sub ps))), .int (writeSecs (Seconds (ts.Sub ps))),
        .str str] <;> rfl

/-- The body of `Debugf` leaves the receiver object as it was. -/
theorem Mem_Debugf_eq (t : TimeLogger) (s : Store) (ps ts : Time) (format : Bytes)
    (args : List Arg) :
    Mem.Debugf ⟨t, s⟩ ps ts format args =
      (t.Debugf ps ts format args s).map (fun s1 => ⟨t, s1⟩) := by
  unfold Mem.Debugf TimeLogger.Debugf
  simp only [Mem_write_eq]
  split_ifs <;> simp [Option.map_map, Function.comp_def]

/-- The body of `Infof` leaves the receiver object as it was. -/
theorem Mem_Infof_eq (t : TimeLogger) (s : Store) (ps ts : Time) (format : Bytes)
    (args : List Arg) :
    Mem.Infof ⟨t, s⟩ ps ts format args =
      (t.Infof ps ts format args s).map (fun s1 => ⟨t, s1⟩) := by
  unfold Mem.Infof TimeLogger.Infof
  simp only [Mem_write_eq]
  split_ifs <;> simp [Option.map_map, Function.comp_def]

/-- The body of `Warningf` leaves the receiver object as it was. -/
theorem Mem_Warningf_eq (t : TimeLogger) (s : Store) (ps ts : Time) (format : Bytes)
    (args : List Arg) :
    Mem.Warningf ⟨t, s⟩ ps ts format args =
      (t.Warningf ps ts format args s).map (fun s1 => ⟨t, s1⟩) := by
  unfold Mem.Warningf TimeLogger.Warningf
  simp only [Mem_write_eq]
  split_ifs <;> simp [Option.map_map, Function.comp_def]

/-- The body of `Errorf` leaves the receiver object as it was. -/
theorem Mem_Errorf_eq (t : TimeLogger) (s : Store) (ps ts : Time) (format : Bytes)
    (args : List Arg) :
    Mem.Errorf ⟨t, s⟩ ps ts format args =
      (t.Errorf ps ts format args s).map (fun s1 => ⟨t, s1⟩) := by
  unfold Mem.Errorf TimeLogger.Errorf
  simp only [Mem_write_eq]
  split_ifs <;> simp [Option.map_map, Function.comp_def]

/-- The body of `IsLevel` leaves the whole memory as it was and returns what
`TimeLogger.IsLevel` says. -/
theorem Mem_IsLevel_eq (t : TimeLogger) (s : Store) (level : LogLevel) :
    Mem.IsLevel ⟨t, s⟩ level = (⟨t, s⟩, t.IsLevel level) := by
  unfold Mem.IsLevel TimeLogger.IsLevel
  split_ifs <;> rfl

/-- A call, method by method: the receiver object comes back as it went in. -/
theorem call_eq (t : TimeLogger) (ps : Time) (c : Call) (s : Store) :
    t.call ps c s =
      match c with
      | .debugf ts format args =>
        (t.Debugf ps ts format args s).map (fun s1 => (t, s1, none))
      | .infof ts format args =>
        (t.Infof ps ts format args s).map (fun s1 => (t, s1, none))
      | .warningf ts format args =>
        (t.Warningf ps ts format args s).map (fun s1 => (t, s1, none))
      | .errorf ts format args =>
        (t.Errorf ps ts format args s).map (fun s1 => (t, s1, none))
      | .isLevel level => some (t, s, some (t.IsLevel level)) := by
  cases c <;>
    simp [TimeLogger.call, Mem_Debugf_eq, Mem_Infof_eq, Mem_Warningf_eq, Mem_Errorf_eq,
      Mem_IsLevel_eq, Option.map_map, Function.comp_def]

/-- The write call of a level is the write method of that level; it hands the
receiver back and returns no value. -/
theorem call_ofLevel (t : TimeLogger) (L : LogLevel) (ps ts : Time) (format : Bytes)
    (args : List Arg) (s : Store) :
    t.call ps (Call.ofLevel L ts format args) s =
      (t.leveled L ps ts format args s).map (fun s1 => (t, s1, none)) := by
  rw [call_eq]
  unfold Call.ofLevel TimeLogger.leveled
  split_ifs <;> rfl

/-- A write method on an enabled level whose reference leads to a destination:
the store afterwards holds what `Write` of that destination left, whatever
`Write` returned. -/
theorem leveled_some_dest (t : TimeLogger) (L : LogLevel)
    (hL : L = DEBUG ∨ L = INFO ∨ L = WARN ∨ L = ERROR) (ps ts : Time) (format : Bytes)
    (args : List Arg) (s : Store) (a : Addr) (d : Dest)
    (ha : t.handleOf L = some a) (hd : s a = some d) :
    t.leveled L ps ts format args s =
      some (Function.update s a
        (some (d.Write (writeText ps ts (tagOf L) (Sprintf format args))).1)) := by
  rw [leveled_eq t L hL, ha, write_some t ps ts a _ _ s d hd]
  simp

/-- A write method on an enabled level whose reference leads to the nil interface
panics. -/
theorem leveled_nil_dest (t : TimeLogger) (L : LogLevel)
    (hL : L = DEBUG ∨ L = INFO ∨ L = WARN ∨ L = ERROR) (ps ts : Time) (format : Bytes)
    (args : List Arg) (s : Store) (a : Addr)
    (ha : t.handleOf L = some a) (hnil : s a = none) :
    t.leveled L ps ts format args s = none := by
  rw [leveled_eq t L hL, ha]
  simp [TimeLogger.write, Fprintf, hnil]

/-- A write method on a disabled level returns with the store as it was. -/
theorem leveled_disabled (t : TimeLogger) (L : LogLevel)
    (hL : L = DEBUG ∨ L = INFO ∨ L = WARN ∨ L = ERROR) (ps ts : Time) (format : Bytes)
    (args : List Arg) (s : Store) (ha : t.handleOf L = none) :
    t.leveled L ps ts format args s = some s := by
  rw [leveled_eq t L hL, ha]
  simp

/-- A write method whose reference, when present, leads to a destination returns,
and every variable that held a destination before still holds one. -/
theorem leveled_returns (t : TimeLogger) (L : LogLevel)
    (hL : L = DEBUG ∨ L = INFO ∨ L = WARN ∨ L = ERROR) (ps ts : Time) (format : Bytes)
    (args : List Arg) (s : Store) (hlive : ∀ a, t.handleOf L = some a → s a ≠ none) :
    ∃ s1, t.leveled L ps ts format args s = some s1 ∧ ∀ b, s b ≠ none → s1 b ≠ none := by
  cases ha : t.handleOf L with
  | none => exact ⟨s, leveled_disabled t L hL ps ts format args s ha, fun _ h => h⟩
  | some a =>
    obtain ⟨d, hd⟩ := Option.ne_none_iff_exists'.mp (hlive a ha)
    refine ⟨_, leveled_some_dest t L hL ps ts format args s a d ha hd, fun b hb => ?_⟩
    by_cases hba : b = a
    · subst hba; simp
    · rw [Function.update_noteq hba]; exact hb

/-- A write that does not fit is cut short and reports an error. -/
theorem Write_short (d : Dest) (p : Bytes) (k : Nat) (hr : d.room = some k)
    (hk : k < p.length) :
    d.Write p = ({ content := d.content ++ p.take k, room := some 0 }, (k : Int), true) := by
  simp [Dest.Write, hr, Nat.not_le.mpr hk]

/-- A record has more than twenty-five bytes. -/
theorem writeText_length_gt (ps ts : Time) (L : LogLevel) (m : Bytes) :
    25 < (writeText ps ts (tagOf L) m).length := by
  rw [writeText_eq]
  simp only [List.length_append, tagOf_length, Format_length]
  have : (" - ".toList).length = 3 := rfl
  omega

/-- C12: failures of the destination are absorbed. For every writer, enabled
level, format, operands and clock reading, when `Write` of the destination
reports an error or a short byte count: the internal `write` returns that pair,
while the public method completes, returns no value and hands back the writer
with its four references as they were; what the caller sees is exactly what it
sees when the destination takes the whole write. -/
theorem write_failure_absorbed (t : TimeLogger) (L : LogLevel)
    (hL : L = DEBUG ∨ L = INFO ∨ L = WARN ∨ L = ERROR) (ps ts : Time) (format : Bytes)
    (args : List Arg) (s : Store) (a : Addr) (d : Dest)
    (ha : t.handleOf L = some a) (hd : s a = some d)
    (hfail : (d.Write (writeText ps ts (tagOf L) (Sprintf format args))).2.2 = true ∨
      (d.Write (writeText ps ts (tagOf L) (Sprintf format args))).2.1 <
        ((writeText ps ts (tagOf L) (Sprintf format args)).length : Int)) :
    t.write ps ts (some a) (tagOf L) (Sprintf format args) s =
      some (Function.update s a
          (some (d.Write (writeText ps ts (tagOf L) (Sprintf format args))).1),
        (d.Write (writeText ps ts (tagOf L) (Sprintf format args))).2) ∧
    t.call ps (Call.ofLevel L ts format args) s =
      some (t, Function.update s a
          (some (d.Write (writeText ps ts (tagOf L) (Sprintf format args))).1), none) ∧
    towardsCaller (t.call ps (Call.ofLevel L ts format args) s) = some (t, none) ∧
    towardsCaller (t.call ps (Call.ofLevel L ts format args) s) =
      towardsCaller (t.call ps (Call.ofLevel L ts format args)
        (Function.update s a (some { d with room := none }))) := by
  have _ := hfail
  have h1 := leveled_some_dest t L hL ps ts format args s a d ha hd
  have h2 := leveled_some_dest t L hL ps ts format args
    (Function.update s a (some { d with room := none })) a { d with room := none } ha
    (by simp)
  refine ⟨write_some t ps ts a _ _ s d hd, ?_, ?_, ?_⟩
  · rw [call_ofLevel, h1]; rfl
  · rw [call_ofLevel, h1]; rfl
  · rw [call_ofLevel, call_ofLevel, h1, h2]; rfl

/-- C12, at a concrete input: `Errorf("bad")` through a writer of threshold WARN
on a destination at address `0` with room for three bytes only. -/
theorem write_failure_absorbed_witness :
    (ERROR = DEBUG ∨ ERROR = INFO ∨ ERROR = WARN ∨ ERROR = ERROR) ∧
    (NewTimeLogger (some 0) WARN).handleOf ERROR = some 0 ∧
    (({ content := [], room := some 3 } : Dest).Write
      (writeText ⟨0, 0, 0, 0, 0, 0, 0⟩ ⟨0, 0, 0, 1, 5, 0, 65000000000⟩ (tagOf ERROR)
        (Sprintf "bad".toList []))).2 = ((3 : Int), true) ∧
    (NewTimeLogger (some 0) WARN).call ⟨0, 0, 0, 0, 0, 0, 0⟩
        (Call.ofLevel ERROR ⟨0, 0, 0, 1, 5, 0, 65000000000⟩ "bad".toList [])
        (fun _ => some { content := [], room := some 3 }) =
      some (NewTimeLogger (some 0) WARN,
        Function.update (fun _ => some { content := [], room := some 3 }) 0
          (some (({ content := [], room := some 3 } : Dest).Write
            (writeText ⟨0, 0, 0, 0, 0, 0, 0⟩ ⟨0, 0, 0, 1, 5, 0, 65000000000⟩ (tagOf ERROR)
              (Sprintf "bad".toList []))).1), none) :=
  have hshort := Write_short { content := [], room := some 3 }
    (writeText ⟨0, 0, 0, 0, 0, 0, 0⟩ ⟨0, 0, 0, 1, 5, 0, 65000000000⟩ (tagOf ERROR)
      (Sprintf "bad".toList [])) 3 rfl
    (lt_trans (by decide) (writeText_length_gt _ _ ERROR _))
  ⟨by decide, by decide, by rw [hshort]; rfl,
    (write_failure_absorbed (NewTimeLogger (some 0) WARN) ERROR (by decide)
      ⟨0, 0, 0, 0, 0, 0, 0⟩ ⟨0, 0, 0, 1, 5, 0, 65000000000⟩ "bad".toList []
      (fun _ => some { content := [], room := some 3 }) 0 { content := [], room := some 3 }
      (by decide) rfl (Or.inl (by rw [hshort]))).2.1⟩

/-- A call that returns hands back the receiver it was given. -/
theorem call_receiver (t : TimeLogger) (ps : Time) (c : Call) (s : Store)
    (r : TimeLogger × Store × Option Bool) (h : t.call ps c s = some r) : r.1 = t := by
  cases c with
  | isLevel level =>
    rw [call_eq] at h
    simp only [Option.some.injEq] at h
    rw [← h]
  | _ =>
    rw [call_eq] at h
    simp only [Option.map_eq_some'] at h
    obtain ⟨s1, -, rfl⟩ := h
    rfl

/-- The reference of a level is one of the four fields of the writer. -/
theorem handleOf_cases (t : TimeLogger) (L : LogLevel) (a : Addr)
    (h : t.handleOf L = some a) :
    t.debugW = some a ∨ t.infoW = some a ∨ t.warnW = some a ∨ t.errorW = some a := by
  unfold TimeLogger.handleOf at h
  split_ifs at h
  · exact Or.inl h
  · exact Or.inr (Or.inl h)
  · exact Or.inr (Or.inr (Or.inl h))
  · exact Or.inr (Or.inr (Or.inr h))

/-- A call on a writer whose present references lead to destinations returns,
with the receiver it was given, and every variable that held a destination
before still holds one. -/
theorem call_returns (t : TimeLogger) (ps : Time) (c : Call) (s : Store)
    (hlive : ∀ a, (t.debugW = some a ∨ t.infoW = some a ∨ t.warnW = some a ∨
      t.errorW = some a) → s a ≠ none) :
    ∃ s1 v, t.call ps c s = some (t, s1, v) ∧ ∀ b, s b ≠ none → s1 b ≠ none := by
  have hl : ∀ L a, t.handleOf L = some a → s a ≠ none :=
    fun L a h => hlive a (handleOf_cases t L a h)
  cases c with
  | debugf ts format args =>
    obtain ⟨s1, h1, h2⟩ := leveled_returns t DEBUG (by decide) ps ts format args s (hl DEBUG)
    have h3 : t.Debugf ps ts format args s = some s1 := by
      simpa [TimeLogger.leveled] using h1
    exact ⟨s1, none, by simp [call_eq, h3], h2⟩
  | infof ts format args =>
    obtain ⟨s1, h1, h2⟩ := leveled_returns t INFO (by decide) ps ts format args s (hl INFO)
    have h3 : t.Infof ps ts format args s = some s1 := by
      simpa [TimeLogger.leveled, INFO, DEBUG] using h1
    exact ⟨s1, none, by simp [call_eq, h3], h2⟩
  | warningf ts format args =>
    obtain ⟨s1, h1, h2⟩ := leveled_returns t WARN (by decide) ps ts format args s (hl WARN)
    have h3 : t.Warningf ps ts format args s = some s1 := by
      simpa [TimeLogger.leveled, WARN, INFO, DEBUG] using h1
    exact ⟨s1, none, by simp [call_eq, h3], h2⟩
  | errorf ts format args =>
    obtain ⟨s1, h1, h2⟩ := leveled_returns t ERROR (by decide) ps ts format args s (hl ERROR)
    have h3 : t.Errorf ps ts format args s = some s1 := by
      simpa [TimeLogger.leveled, ERROR, WARN, INFO, DEBUG] using h1
    exact ⟨s1, none, by simp [call_eq, h3], h2⟩
  | isLevel level => exact ⟨s, some (t.IsLevel level), by rw [call_eq], fun _ h => h⟩

/-- A sequence of calls that returns hands back the receiver it was given. -/
theorem run_receiver (ps : Time) (calls : List Call) :
    ∀ (t : TimeLogger) (s : Store) (r : TimeLogger × Store),
      TimeLogger.run ps calls t s = some r → r.1 = t := by
  induction calls with
  | nil =>
    intro t s r h
    simp only [TimeLogger.run, Option.some.injEq] at h
    rw [← h]
  | cons c rest ih =>
    intro t s r h
    simp only [TimeLogger.run, Option.bind_eq_some] at h
    obtain ⟨r1, h1, h2⟩ := h
    rw [ih _ _ _ h2, call_receiver t ps c s r1 h1]

/-- A sequence of calls on a writer whose present references lead to
destinations returns. -/
theorem run_returns (ps : Time) (calls : List Call) (t : TimeLogger) :
    ∀ (s : Store), (∀ a, (t.debugW = some a ∨ t.infoW = some a ∨ t.warnW = some a ∨
        t.errorW = some a) → s a ≠ none) →
      ∃ s1, TimeLogger.run ps calls t s = some (t, s1) := by
  induction calls with
  | nil => intro s _; exact ⟨s, rfl⟩
  | cons c rest ih =>
    intro s hlive
    obtain ⟨s1, v, h1, h2⟩ := call_returns t ps c s hlive
    obtain ⟨s2, h3⟩ := ih s1 (fun a ha => h2 a (hlive a ha))
    exact ⟨s2, by simp [TimeLogger.run, h1, h3]⟩

/-- C13: a `TimeLogger` is immutable after construction. Every method runs on the
memory that holds the receiver object, so a body could assign to its fields;
none does. For every writer and every finite sequence of calls of `Debugf`,
`Infof`, `Warningf`, `Errorf` and `IsLevel`, with any formats, operands, levels,
clock readings and store: if the sequence returns, the receiver object after it
has the four references it had before, so `IsLevel L` gives the same value for
every `L`; and the sequence does return whenever the present references lead to
destinations. -/
theorem timeLogger_immutable (ps : Time) (calls : List Call) (t : TimeLogger) (s : Store) :
    (∀ r, TimeLogger.run ps calls t s = some r →
      (r.1.debugW = t.debugW ∧ r.1.infoW = t.infoW ∧ r.1.warnW = t.warnW ∧
        r.1.errorW = t.errorW) ∧
      ∀ L, r.1.IsLevel L = t.IsLevel L) ∧
    ((∀ a, (t.debugW = some a ∨ t.infoW = some a ∨ t.warnW = some a ∨
        t.errorW = some a) → s a ≠ none) →
      ∃ s1, TimeLogger.run ps calls t s = some (t, s1)) := by
  refine ⟨fun r h => ?_, run_returns ps calls t s⟩
  rw [run_receiver ps calls t s r h]
  exact ⟨⟨rfl, rfl, rfl, rfl⟩, fun _ => rfl⟩

/-- C13, at a concrete input: on the writer of threshold WARN with a buffer at
address `0`, the calls `Debugf("x")`, `IsLevel(WARN)`, `Errorf("bad")` return and
leave the writer as it was. -/
theorem timeLogger_immutable_witness :
    (∀ a, ((NewTimeLogger (some 0) WARN).debugW = some a ∨
        (NewTimeLogger (some 0) WARN).infoW = some a ∨
        (NewTimeLogger (some 0) WARN).warnW = some a ∨
        (NewTimeLogger (some 0) WARN).errorW = some a) →
      (fun _ => some ({ content := [], room := none } : Dest) : Store) a ≠ none) ∧
    ∃ s1, TimeLogger.run ⟨0, 0, 0, 0, 0, 0, 0⟩
        [.debugf ⟨0, 0, 0, 0, 1, 0, 1000000000⟩ "x".toList [], .isLevel WARN,
          .errorf ⟨0, 0, 0, 0, 2, 0, 2000000000⟩ "bad".toList []]
        (NewTimeLogger (some 0) WARN) (fun _ => some { content := [], room := none }) =
      some (NewTimeLogger (some 0) WARN, s1) :=
  ⟨fun _ _ => by simp,
    (timeLogger_immutable ⟨0, 0, 0, 0, 0, 0, 0⟩ _ (NewTimeLogger (some 0) WARN)
      (fun _ => some { content := [], room := none })).2 (fun _ _ => by simp)⟩

/-- A call through the interface on a `TimeLogger` is the call on that writer. -/
theorem Logger_call_time (t : TimeLogger) (ps : Time) (c : Call) (s : Store) :
    (Logger.time t).call ps c s =
      (t.call ps c s).map (fun r => (Logger.time r.1, r.2.1, r.2.2)) := by
  cases c <;>
    simp [Logger.call, call_eq, Logger.Debugf, Logger.Infof, Logger.Warningf,
      Logger.Errorf, Logger.IsLevel, Option.map_map, Function.comp_def]

/-- The reference a fresh writer holds for one of the four levels. -/
theorem handleOf_new (w : Handle) (T L : LogLevel)
    (hL : L = DEBUG ∨ L = INFO ∨ L = WARN ∨ L = ERROR) :
    (NewTimeLogger w T).handleOf L = if T ≤ L then w else none := by
  rw [NewTimeLogger_fields]
  rcases hL with h | h | h | h <;> subst h <;>
    simp [TimeLogger.handleOf, DEBUG, INFO, WARN, ERROR]

/-- Every reference a fresh writer holds is the handle it was built with. -/
theorem new_refs (w : Handle) (T : LogLevel) (a : Addr)
    (h : (NewTimeLogger w T).debugW = some a ∨ (NewTimeLogger w T).infoW = some a ∨
      (NewTimeLogger w T).warnW = some a ∨ (NewTimeLogger w T).errorW = some a) :
    w = some a := by
  rw [NewTimeLogger_fields] at h
  simp only at h
  rcases h with h | h | h | h <;> split_ifs at h <;> exact h

/-- C14, as stated, fails: on a handle that refers to the nil interface, `Debugf`
of a writer of threshold DEBUG panics (the call has no result). -/
theorem nil_destination_counterexample :
    (Logger.time (NewTimeLogger (some 0) DEBUG)).call ⟨0, 0, 0, 0, 0, 0, 0⟩
      (.debugf ⟨0, 0, 0, 0, 1, 0, 1000000000⟩ "x".toList []) (fun _ => none) = none := by
  have hf : NewTimeLogger (some 0) DEBUG =
      { debugW := some 0, infoW := some 0, warnW := some 0, errorW := some 0 } := by
    rw [NewTimeLogger_fields]; simp [DEBUG, INFO, WARN, ERROR]
  rw [hf]
  simp [Logger.call, Logger.Debugf, TimeLogger.Debugf, TimeLogger.write, Fprintf]

/-- C14, amended: no `Logger` operation panics when the handle is nil or refers
to a destination. Every call of `Debugf`, `Infof`, `Warningf`, `Errorf` and
`IsLevel`, with any format, operands and level, returns: on `NullLogger` always;
on `NewTimeLogger w T`, for any threshold `T`, whenever `w` is nil or refers to a
destination. On a handle that refers to the nil interface `IsLevel` still
returns, and the write method of one of the four levels panics exactly when the
level is enabled. -/
theorem logger_calls_return (w : Handle) (T : LogLevel) (ps : Time) (c : Call) (s : Store) :
    (∃ r, NullLogger.call ps c s = some r) ∧
    ((∀ a, w = some a → s a ≠ none) →
      ∃ r, (Logger.time (NewTimeLogger w T)).call ps c s = some r) ∧
    (∀ level, ∃ r, (Logger.time (NewTimeLogger w T)).call ps (.isLevel level) s = some r) ∧
    (∀ a L ts format args, w = some a → s a = none →
      (L = DEBUG ∨ L = INFO ∨ L = WARN ∨ L = ERROR) →
      ((Logger.time (NewTimeLogger w T)).call ps (Call.ofLevel L ts format args) s = none ↔
        T ≤ L)) := by
  refine ⟨?_, ?_, ?_, ?_⟩
  · cases c <;> exact ⟨_, rfl⟩
  · intro hw
    obtain ⟨s1, v, h, -⟩ := call_returns (NewTimeLogger w T) ps c s
      (fun a ha => hw a (new_refs w T a ha))
    exact ⟨_, by rw [Logger_call_time, h]; rfl⟩
  · intro level
    exact ⟨_, rfl⟩
  · intro a L ts format args hw hnil hL
    rw [Logger_call_time, call_ofLevel]
    by_cases hTL : T ≤ L
    · have ha : (NewTimeLogger w T).handleOf L = some a := by
        rw [handleOf_new w T L hL, if_pos hTL, hw]
      rw [leveled_nil_dest _ L hL ps ts format args s a ha hnil]
      simp [hTL]
    · have ha : (NewTimeLogger w T).handleOf L = none := by
        rw [handleOf_new w T L hL, if_neg hTL]
      rw [leveled_disabled _ L hL ps ts format args s ha]
      simp [hTL]

/-- C14, amended, at concrete inputs: `Warningf` through a writer of threshold
DEBUG on a buffer at address `0` returns, and `Infof` through a writer of
threshold WARN on a nil interface at address `0` returns as well. -/
theorem logger_calls_return_witness :
    (∀ a, (some 0 : Handle) = some a →
      (fun _ => some ({ content := [], room := none } : Dest) : Store) a ≠ none) ∧
    (∃ r, (Logger.time (NewTimeLogger (some 0) DEBUG)).call ⟨0, 0, 0, 0, 0, 0, 0⟩
      (.warningf ⟨0, 0, 0, 0, 1, 0, 1000000000⟩ "n=%d".toList [.int 3])
      (fun _ => some { content := [], room := none }) = some r) ∧
    ((some 0 : Handle) = some 0 ∧ (fun _ => none : Store) 0 = none ∧
      (INFO = DEBUG ∨ INFO = INFO ∨ INFO = WARN ∨ INFO = ERROR)) ∧
    ((Logger.time (NewTimeLogger (some 0) WARN)).call ⟨0, 0, 0, 0, 0, 0, 0⟩
        (Call.ofLevel INFO ⟨0, 0, 0, 0, 1, 0, 1000000000⟩ "x".toList [])
        (fun _ => none) = none ↔ WARN ≤ INFO) :=
  ⟨fun _ _ => by simp,
    (logger_calls_return (some 0) DEBUG ⟨0, 0, 0, 0, 0, 0, 0⟩
      (.warningf ⟨0, 0, 0, 0, 1, 0, 1000000000⟩ "n=%d".toList [.int 3])
      (fun _ => some { content := [], room := none })).2.1 (fun _ _ => by simp),
    ⟨rfl, rfl, by decide⟩,
    (logger_calls_return (some 0) WARN ⟨0, 0, 0, 0, 0, 0, 0⟩ (.isLevel 0)
      (fun _ => none)).2.2.2 0 INFO ⟨0, 0, 0, 0, 1, 0, 1000000000⟩ "x".toList [] rfl rfl
      (by decide)⟩

/-! ### Destinations that take no byte, or only a part -/

/-- C2, as stated, fails: with the DEBUG reference present `IsLevel(DEBUG)` is
true, yet `Debugf("x")` writes no byte when the reference leads to a destination
that takes nothing more (its `Write` returns `0` and an error), and none when it
leads to the nil interface (the call panics). -/
theorem gate_no_byte_counterexample :
    (NewTimeLogger (some 0) DEBUG).IsLevel DEBUG = true ∧
    (NewTimeLogger (some 0) DEBUG).Debugf ⟨0, 0, 0, 0, 0, 0, 0⟩
        ⟨0, 0, 0, 0, 1, 0, 1000000000⟩ "x".toList []
        (fun _ => some { content := [], room := some 0 }) =
      some (Function.update (fun _ => some { content := [], room := some 0 }) 0
        (some { content := [], room := some 0 })) ∧
    ¬ wroteBytes (fun _ => some { content := [], room := some 0 })
      ((NewTimeLogger (some 0) DEBUG).Debugf ⟨0, 0, 0, 0, 0, 0, 0⟩
        ⟨0, 0, 0, 0, 1, 0, 1000000000⟩ "x".toList []
        (fun _ => some { content := [], room := some 0 })) ∧
    (NewTimeLogger (some 0) DEBUG).Debugf ⟨0, 0, 0, 0, 0, 0, 0⟩
        ⟨0, 0, 0, 0, 1, 0, 1000000000⟩ "x".toList [] (fun _ => none) = none ∧
    ¬ wroteBytes (fun _ => none)
      ((NewTimeLogger (some 0) DEBUG).Debugf ⟨0, 0, 0, 0, 0, 0, 0⟩
        ⟨0, 0, 0, 0, 1, 0, 1000000000⟩ "x".toList [] (fun _ => none)) := by
  have hf : NewTimeLogger (some 0) DEBUG =
      { debugW := some 0, infoW := some 0, warnW := some 0, errorW := some 0 } := by
    rw [NewTimeLogger_fields]; simp [DEBUG, INFO, WARN, ERROR]
  have hcall : (NewTimeLogger (some 0) DEBUG).Debugf ⟨0, 0, 0, 0, 0, 0, 0⟩
        ⟨0, 0, 0, 0, 1, 0, 1000000000⟩ "x".toList []
        (fun _ => some { content := [], room := some 0 }) =
      some (Function.update (fun _ => some { content := [], room := some 0 }) 0
        (some { content := [], room := some 0 })) := by
    rw [hf]
    simp only [TimeLogger.Debugf, ne_eq, reduceCtorEq, not_false_eq_true, if_true]
    have hlen : 25 < (writeText ⟨0, 0, 0, 0, 0, 0, 0⟩ ⟨0, 0, 0, 0, 1, 0, 1000000000⟩
        "DEBUG ".toList (Sprintf "x".toList [])).length :=
      writeText_length_gt _ _ DEBUG _
    rw [write_some _ _ _ 0 _ _ _ { content := [], room := some 0 } rfl,
      Write_short { content := [], room := some 0 } _ 0 rfl (lt_trans (by decide) hlen)]
    rfl
  have hnil : (NewTimeLogger (some 0) DEBUG).Debugf ⟨0, 0, 0, 0, 0, 0, 0⟩
        ⟨0, 0, 0, 0, 1, 0, 1000000000⟩ "x".toList [] (fun _ => none) = none := by
    rw [hf]
    simp [TimeLogger.Debugf, TimeLogger.write, Fprintf]
  refine ⟨by rw [hf]; decide, hcall, ?_, hnil, ?_⟩
  · rw [hcall]
    rintro ⟨s1, a, d, d1, hr, h0, h1, hlt⟩
    simp only [Option.some.injEq] at hr h0
    subst hr h0
    by_cases ha : a = 0
    · subst ha
      simp only [Function.update_same, Option.some.injEq] at h1
      subst h1
      exact absurd hlt (lt_irrefl _)
    · rw [Function.update_noteq ha] at h1
      simp only [Option.some.injEq] at h1
      subst h1
      exact absurd hlt (lt_irrefl _)
  · rw [hnil]
    rintro ⟨s1, a, d, d1, hr, -⟩
    cases hr

/-- C3, as stated, fails: on an enabled level whose destination has room for
three bytes only, `Errorf("bad")` appends `ERR`, the first three bytes of the
record, and not the record. -/
theorem short_write_counterexample :
    (NewTimeLogger (some 0) WARN).IsLevel ERROR = true ∧
    (NewTimeLogger (some 0) WARN).Errorf ⟨0, 0, 0, 0, 0, 0, 0⟩
        ⟨0, 0, 0, 1, 5, 0, 65000000000⟩ "bad".toList []
        (fun _ => some { content := [], room := some 3 }) =
      some (Function.update (fun _ => some { content := [], room := some 3 }) 0
        (some { content := "ERR".toList, room := some 0 })) ∧
    "ERR".toList ≠ recordOf "ERROR ".toList
      ((⟨0, 0, 0, 1, 5, 0, 65000000000⟩ : Time).Format logTimestampFormat)
      (writeMins (Seconds ((⟨0, 0, 0, 1, 5, 0, 65000000000⟩ : Time).Sub
        ⟨0, 0, 0, 0, 0, 0, 0⟩)))
      (writeSecs (Seconds ((⟨0, 0, 0, 1, 5, 0, 65000000000⟩ : Time).Sub
        ⟨0, 0, 0, 0, 0, 0, 0⟩))) "bad".toList := by
  have hf : NewTimeLogger (some 0) WARN =
      { debugW := none, infoW := none, warnW := some 0, errorW := some 0 } := by
    rw [NewTimeLogger_fields]; simp [DEBUG, INFO, WARN, ERROR]
  have hlen : 25 < (writeText ⟨0, 0, 0, 0, 0, 0, 0⟩ ⟨0, 0, 0, 1, 5, 0, 65000000000⟩
      "ERROR ".toList (Sprintf "bad".toList [])).length :=
    writeText_length_gt _ _ ERROR _
  refine ⟨by rw [hf]; decide, ?_, ?_⟩
  · rw [hf]
    simp only [TimeLogger.Errorf, ne_eq, reduceCtorEq, not_false_eq_true, if_true]
    rw [write_some _ _ _ 0 _ _ _ { content := [], room := some 3 } rfl,
      Write_short { content := [], room := some 3 } _ 3 rfl (lt_trans (by decide) hlen)]
    simp only [Option.map_some', writeText_eq_recordOf, recordOf, List.append_assoc]
    rfl
  · intro h
    rw [← writeText_eq_recordOf] at h
    have h2 := congrArg List.length h
    have h3 : (writeText ⟨0, 0, 0, 0, 0, 0, 0⟩ ⟨0, 0, 0, 1, 5, 0, 65000000000⟩
        "ERROR ".toList "bad".toList).length = 3 := h2.symm
    have h4 : 25 < (writeText ⟨0, 0, 0, 0, 0, 0, 0⟩ ⟨0, 0, 0, 1, 5, 0, 65000000000⟩
        "ERROR ".toList "bad".toList).length := hlen
    rw [h3] at h4
    exact absurd h4 (by decide)

end Utils
